import Mathlib

/-!
Verification development for the PDF table extraction / consolidation tool
(single source file: a streamlit app built on pandas).

The embedding models:
- cells as `Option String` (pandas NaN is `none`; `astype(str)` turns NaN
  into the literal string "nan");
- a dataframe as a rectangular `List (List (Option String))`;
- numeric cell parsing (`pd.to_numeric(..., errors='coerce')` after the
  thousands-separator removal used by the tool) as parsing an optionally
  signed decimal integer literal; the pipeline ends by casting every period
  column with astype(int), so period values are modelled as `Int`;
- the streamlit message calls of the extraction tool as a list of
  diagnostics.
-/

/-- Whitespace characters stripped by Python's str.strip / matched by
regex \s on the inputs this tool sees (ASCII whitespace plus the
ideographic space). -/
def isPySpace (c : Char) : Bool :=
  c = ' ' || c = '\t' || c = '\n' || c = '\r' || c = '\x0b' || c = '\x0c' || c = '　'

/-- Python str.strip on a character list. -/
def pyStripL (l : List Char) : List Char :=
  ((l.dropWhile isPySpace).reverse.dropWhile isPySpace).reverse

/-- Python str.strip. -/
def pyStrip (s : String) : String :=
  ⟨pyStripL s.data⟩

/-- Python str(x) on a pandas cell: NaN prints as "nan". -/
def pyStr : Option String → String
  | none => "nan"
  | some s => s

/-- Substring containment, as used by pandas Series.str.contains with a
regex that is a plain literal. -/
def containsSub (nd : List Char) : List Char → Bool
  | [] => nd.isEmpty
  | c :: t => nd.isPrefixOf (c :: t) || containsSub nd t

/-- Value of a list of decimal digit characters. -/
def digitsVal (l : List Char) : Nat :=
  l.foldl (fun a c => a * 10 + (c.toNat - '0'.toNat)) 0

/-- pd.to_numeric(..., errors='coerce') restricted to the integer literals
this development models: optional surrounding whitespace, an optional sign
and a nonempty digit run; anything else coerces to NaN (`none`). -/
def parseNum (s : String) : Option Int :=
  let t := pyStripL s.data
  let st : Bool × List Char :=
    match t with
    | '-' :: r => (true, r)
    | '+' :: r => (false, r)
    | _ => (false, t)
  if st.2.isEmpty then none
  else if st.2.all Char.isDigit then
    some (if st.1 then -(digitsVal st.2 : Int) else (digitsVal st.2 : Int))
  else none

/-- The value parse applied to a cell string by both mergers:
.str.replace(",", "") followed by pd.to_numeric(..., errors='coerce'). -/
def valParse (s : String) : Option Int :=
  parseNum ⟨s.data.filter (· ≠ ',')⟩

/-- Search position by position, as re.search does: the match attempt at
the leftmost position that succeeds wins. -/
def searchO {α : Type} (f : List Char → Option α) : List Char → Option α
  | [] => f []
  | c :: t =>
    match f (c :: t) with
    | some r => some r
    | none => searchO f t

/-- Match attempt of pattern (20\d{2}Q[1-4]) with IGNORECASE at the head
of the list; on success returns the uppercased group. -/
def p1At : List Char → Option String
  | '2' :: '0' :: a :: b :: q :: r :: _ =>
    if a.isDigit && b.isDigit && (q = 'Q' || q = 'q') && ('1' ≤ r && r ≤ '4') then
      some ⟨['2', '0', a, b, 'Q', r]⟩
    else none
  | _ => none

/-- The (\d{1,2})月 tail of the Japanese year-month patterns: greedy, so a
two-digit month is preferred and one digit is the backtracking fallback. -/
def monthPart : List Char → Option String
  | [] => none
  | e :: rest =>
    if e.isDigit then
      match rest with
      | [] => none
      | f :: rest2 =>
        if f.isDigit then
          match rest2 with
          | '月' :: _ => some ⟨[e, f]⟩
          | _ => none
        else if f = '月' then some ⟨[e]⟩
        else none
    else none

/-- Match attempt of (\d{4})年(\d{1,2})月 at the head of the list. -/
def yearMonthAt : List Char → Option (String × String)
  | a :: b :: c :: d :: '年' :: rest =>
    if a.isDigit && b.isDigit && c.isDigit && d.isDigit then
      (monthPart rest).map (fun m => (⟨[a, b, c, d]⟩, m))
    else none
  | _ => none

/-- Match attempt of \(?自\s*(\d{4})年(\d{1,2})月 at the head of the list. -/
def jiAt (l : List Char) : Option (String × String) :=
  let l1 :=
    match l with
    | '(' :: r => r
    | _ => l
  match l1 with
  | '自' :: r => yearMonthAt (r.dropWhile isPySpace)
  | _ => none

/-- Match attempt of (\d{4})年度 at the head of the list. -/
def nendoAt : List Char → Option String
  | a :: b :: c :: d :: '年' :: '度' :: _ =>
    if a.isDigit && b.isDigit && c.isDigit && d.isDigit then
      some ⟨[a, b, c, d]⟩
    else none
  | _ => none

/-- Full match of the anchored pattern ^\'?(\d{2})/(\d{1,2})$, already
formatted as "20YY/M". -/
def yySlash (l : List Char) : Option String :=
  let l1 :=
    match l with
    | '\'' :: r => r
    | _ => l
  match l1 with
  | [a, b, '/', e] =>
    if a.isDigit && b.isDigit && e.isDigit then some ⟨['2', '0', a, b, '/', e]⟩
    else none
  | [a, b, '/', e, f] =>
    if a.isDigit && b.isDigit && e.isDigit && f.isDigit then
      some ⟨['2', '0', a, b, '/', e, f]⟩
    else none
  | _ => none

/-- Match attempt of (\d{4})/(\d{1,2}) at the head of the list, formatted
as "YYYY/M". -/
def slashAt : List Char → Option String
  | a :: b :: c :: d :: '/' :: e :: rest =>
    if a.isDigit && b.isDigit && c.isDigit && d.isDigit && e.isDigit then
      match rest with
      | f :: _ =>
        if f.isDigit then some ⟨[a, b, c, d, '/', e, f]⟩ else some ⟨[a, b, c, d, '/', e]⟩
      | [] => some ⟨[a, b, c, d, '/', e]⟩
    else none
  | _ => none

/-- Full match of the anchored pattern ^20\d{2}(\d{2})?$ returning the
whole string. -/
def bareYear (l : List Char) : Option String :=
  match l with
  | ['2', '0', a, b] => if a.isDigit && b.isDigit then some ⟨l⟩ else none
  | ['2', '0', a, b, c, d] =>
    if a.isDigit && b.isDigit && c.isDigit && d.isDigit then some ⟨l⟩ else none
  | _ => none

/-- detect_year_header from the source: strip the cell text and try the
fixed list of notation matchers in order, returning the canonical label of
the first one that matches. -/
def detect_year_header (s : String) : Option String :=
  let cs := pyStripL s.data
  match searchO p1At cs with
  | some r => some r
  | none =>
  match searchO jiAt cs with
  | some ym => some (ym.1 ++ "/" ++ ym.2)
  | none =>
  match searchO yearMonthAt cs with
  | some ym => some (ym.1 ++ "/" ++ ym.2)
  | none =>
  match searchO nendoAt cs with
  | some y => some (y ++ "年度")
  | none =>
  match yySlash cs with
  | some r => some r
  | none =>
  match searchO slashAt cs with
  | some r => some r
  | none => bareYear cs

/-- A pandas cell: NaN is none. -/
abbrev Cell := Option String

/-- A dataframe row. -/
abbrev Row := List Cell

/-- A dataframe: a rectangular list of rows. -/
abbrev Grid := List Row

/-- Number of columns (dataframes are rectangular). -/
def gridNumCols (g : Grid) : Nat :=
  (g.headD []).length

/-- Positional cell access (df.iat). -/
def cellAt (g : Grid) (r c : Nat) : Cell :=
  (((g.get? r).getD []).get? c).getD none

/-- A merged frame: the common-item label column plus one list of cells per
period column, each aligned with the labels (a none cell is a NaN left by
a left-merge). -/
structure Frame where
  labels : List String
  cols : List (String × List (Option Int))
deriving DecidableEq, Repr

/-- Scan every cell of the chunk row-major and collect the detected period
headers with their positions; the source sorts by (row, col), which is the
row-major scan order itself. -/
def yearCells (g : Grid) : List (Nat × Nat × String) :=
  (List.range g.length).flatMap (fun r =>
    (List.range (gridNumCols g)).filterMap (fun c =>
      (detect_year_header (pyStr (cellAt g r c))).map (fun h => (r, c, h))))

/-- Column 0 of the chunk as Python strings. -/
def col0Strs (g : Grid) : List String :=
  g.map (fun rw => pyStr ((rw.get? 0).getD none))

/-- Column 0, stripped, blanks removed (the dropna of the source is a
no-op because astype(str) leaves no NaN). -/
def initialItems (g : Grid) : List String :=
  ((col0Strs g).map pyStrip).filter (fun s => s ≠ "")

/-- Ordinal disambiguation of the catch-all label: the k-th occurrence of
"その他" (0-based, counted by cumcount within its value group) becomes
"その他_temp_k"; all other labels are unchanged. -/
def sonotaTag : List String → Nat → List String
  | [], _ => []
  | x :: xs, k =>
    if x = "その他" then ("その他_temp_" ++ toString k) :: sonotaTag xs (k + 1)
    else x :: sonotaTag xs k

/-- The same disambiguation applied to the label component of label/value
pairs. -/
def sonotaTagP {α : Type} : List (String × α) → Nat → List (String × α)
  | [], _ => []
  | p :: ps, k =>
    if p.1 = "その他" then ("その他_temp_" ++ toString k, p.2) :: sonotaTagP ps (k + 1)
    else p :: sonotaTagP ps k

/-- drop_duplicates(keep="first") on a list of labels: keep an element iff
it has not been seen before. -/
def dedupFirstAux (seen : List String) : List String → List String
  | [] => []
  | x :: xs =>
    if seen.contains x then dedupFirstAux seen xs
    else x :: dedupFirstAux (x :: seen) xs

/-- drop_duplicates(keep="first") on a list of labels. -/
def dedupFirst (l : List String) : List String :=
  dedupFirstAux [] l

/-- drop_duplicates(subset=["共通項目"], keep="first") on label/value
pairs: keep a pair iff its label has not been seen before. -/
def dedupByLabelAux (seen : List String) : List (String × Int) → List (String × Int)
  | [] => []
  | p :: ps =>
    if seen.contains p.1 then dedupByLabelAux seen ps
    else p :: dedupByLabelAux (p.1 :: seen) ps

/-- drop_duplicates(subset=["共通項目"], keep="first") on label/value
pairs. -/
def dedupByLabel (l : List (String × Int)) : List (String × Int) :=
  dedupByLabelAux [] l

/-- First value for a label in a pair list (merge lookup against a
label-unique right frame). -/
def lookupVal (l : List (String × Int)) (k : String) : Option Int :=
  (l.find? (fun p => p.1 == k)).map (fun p => p.2)

/-- The two-column slice the vertical merger builds below one detected
period header: labels from column 0 and values from the header's column,
starting one row below the header; labels stripped with blanks dropped and
the catch-all label disambiguated; values parsed with NaN filled to 0; and
duplicate labels dropped keeping the first. -/
def vertSlice (g : Grid) (row col : Nat) : List (String × Int) :=
  let pairs := (g.drop (row + 1)).map (fun rw =>
    (pyStrip (pyStr ((rw.get? 0).getD none)), (rw.get? col).getD none))
  let pairs1 := pairs.filter (fun p => p.1 ≠ "")
  let pairs2 := sonotaTagP pairs1 0
  let pairs3 := pairs2.map (fun p => (p.1, (valParse (pyStr p.2)).getD 0))
  dedupByLabel pairs3

/-- The vertical merger's loop over detected period cells: the first cell
for each canonical period wins, later cells with an already processed
period are skipped, and each processed slice is left-merged onto the fixed
label column. -/
def vertFold (g : Grid) (labels : List String) :
    List (Nat × Nat × String) → List String → List (String × List (Option Int))
  | [], _ => []
  | (r, c, h) :: rest, seen =>
    if seen.contains h then vertFold g labels rest seen
    else
      let sl := vertSlice g r c
      (h, labels.map (fun l => lookupVal sl l)) :: vertFold g labels rest (h :: seen)

/-- tool2_extract_data_vertical from the source. -/
def tool2_extract_data_vertical (g : Grid) : Option Frame × List String :=
  if g.length == 0 || gridNumCols g == 0 then (none, [])
  else
    let yc := yearCells g
    if yc.isEmpty then (none, [])
    else
      let allItems := dedupFirst (sonotaTag (initialItems g) 0)
      (some ⟨allItems, vertFold g allItems yc []⟩, allItems)

/-- Lexicographic (code point) string comparison, Python's default string
order used by the pandas groupby key sort and sorted(). -/
def strLeB : List Char → List Char → Bool
  | [], _ => true
  | _ :: _, [] => false
  | a :: as, b :: bs => if a < b then true else if b < a then false else strLeB as bs

/-- A cell is blank for the horizontal merger's empty-column removal iff
the regex ^\s*$ matches it (NaN counts as blank). -/
def cellBlank : Cell → Bool
  | none => true
  | some s => (pyStripL s.data).isEmpty

/-- One column of a grid. -/
def colCells (g : Grid) (c : Nat) : List Cell :=
  g.map (fun rw => (rw.get? c).getD none)

/-- Indices of the columns kept by the horizontal merger: those not
entirely blank. -/
def keptCols (g : Grid) : List Nat :=
  (List.range (gridNumCols g)).filter (fun c => !((colCells g c).all cellBlank))

/-- Cell content after replace(blank -> NA); dropna(axis=1); fillna(""):
a blank cell becomes the empty string, others keep their text. -/
def hCellStr : Cell → String
  | none => ""
  | some s => if (pyStripL s.data).isEmpty then "" else s

/-- The cleaned horizontal working grid restricted to the kept columns. -/
def hTarget (g : Grid) : Grid :=
  g.map (fun rw => (keptCols g).map (fun c => some (hCellStr ((rw.get? c).getD none))))

/-- Scan the first up to 10 rows, row-major, for the first cell carrying a
period notation. -/
def findHeader (t : Grid) : Option (Nat × String) :=
  (List.range (min 10 t.length)).findSome? (fun r =>
    ((t.get? r).getD []).findSome? (fun cell =>
      (detect_year_header (pyStr cell)).map (fun h => (r, h))))

/-- groupby("共通項目").sum() with as_index=False: group keys sorted
lexicographically, values of each group summed. -/
def groupSum (l : List (String × Int)) : List (String × Int) :=
  (List.insertionSort (fun a b => strLeB a.data b.data = true)
      (dedupFirst (l.map (fun p => p.1)))).map
    (fun k => (k, (l.filter (fun p => p.1 == k)).foldl (fun a p => a + p.2) 0))

/-- tool2_extract_data_horizontal from the source. -/
def tool2_extract_data_horizontal (g : Grid) : Option Frame × List String :=
  if g.length == 0 || gridNumCols g == 0 then (none, [])
  else
    let t := hTarget g
    if (keptCols g).length < 2 then (none, [])
    else
      let hd :=
        match findHeader t with
        | some rh => rh
        | none =>
          let fb := pyStrip (pyStr (cellAt t 0 ((keptCols g).length - 1)))
          (0, if fb = "" then "Unknown_Period" else fb)
      let start := match findHeader t with | some rh => rh.1 + 1 | none => 0
      let pairs := (t.drop start).map (fun rw =>
        (pyStrip (pyStr ((rw.get? 0).getD none)),
         pyStr ((rw.get? ((keptCols g).length - 1)).getD none)))
      let pairs1 := pairs.filter (fun p => p.1 ≠ "")
      let pairs2 := pairs1.filterMap (fun p => (valParse p.2).map (fun v => (p.1, v)))
      let pairs3 := sonotaTagP pairs2 0
      let grouped := groupSum pairs3
      (some ⟨grouped.map (fun p => p.1), [(hd.2, grouped.map (fun p => some p.2))]⟩,
       grouped.map (fun p => p.1))

/-- The integration mode selected for a whole consolidation run. -/
inductive Mode
  | vertical
  | horizontal
deriving DecidableEq, Repr

/-- Dispatch to the selected merger. -/
def mergerFor : Mode → Grid → Option Frame × List String
  | Mode.vertical => tool2_extract_data_vertical
  | Mode.horizontal => tool2_extract_data_horizontal

/-- df_full[0] = df_full[0].astype(str): column 0 becomes a string column,
NaN becoming the string "nan". -/
def astype0 (g : Grid) : Grid :=
  g.map (fun rw =>
    match rw with
    | [] => []
    | c :: rest => some (pyStr c) :: rest)

/-- Column 0 of a row as the Python string pandas sees there. -/
def col0Of (rw : Row) : String :=
  pyStr ((rw.get? 0).getD none)

/-- Does the row carry a file-name marker (str.contains of the literal
"ファイル名:")? -/
def isFileMarker (rw : Row) : Bool :=
  containsSub "ファイル名:".data (col0Of rw).data

/-- Does the row carry a page/table marker (str.contains of the literal
"--- ページ")? -/
def isPageMarker (rw : Row) : Bool :=
  containsSub "--- ページ".data (col0Of rw).data

/-- Indices of rows satisfying a predicate. -/
def markerIdxs (g : Grid) (p : Row → Bool) : List Nat :=
  (List.range g.length).filter (fun i => p ((g.get? i).getD []))

/-- Successive iloc slices from each index of the list to the next (the
last slice extends to the end). -/
def sliceList (g : Grid) : List Nat → List Grid
  | [] => []
  | [i] => [g.drop i]
  | i :: j :: rest => ((g.drop i).take (j - i)) :: sliceList g (j :: rest)

/-- Split the sheet into per-file chunks at the file-name marker rows; a
sheet without any marker is one single chunk. -/
def fileChunks (g : Grid) : List Grid :=
  let idxs := markerIdxs g isFileMarker
  if idxs.isEmpty then [g] else sliceList g idxs

/-- Is the string entirely whitespace (the anchored regex ^\s*$)? -/
def isBlankStr (s : String) : Bool :=
  s.data.all isPySpace

/-- dropna(how="all"): drop the rows whose every cell is NaN. -/
def dropAllNa (g : Grid) : Grid :=
  g.filter (fun rw => !(rw.all (fun c => c = none)))

/-- Split one file chunk into table chunks at the page/table marker rows;
without such markers the whole chunk (minus marker and blank-column-0
rows) is a single table chunk. The slice before the first marker is kept
when nonempty, exactly as the source's loop starting at last_idx = 0. -/
def tableChunks (fc : Grid) : List Grid :=
  let pidx := markerIdxs fc isPageMarker
  if pidx.isEmpty then
    let clean := dropAllNa (fc.filter (fun rw =>
      !(containsSub "ファイル名:".data (col0Of rw).data
        || containsSub "---".data (col0Of rw).data
        || isBlankStr (col0Of rw))))
    if clean.isEmpty then [] else [clean]
  else
    (sliceList fc (0 :: pidx)).filter (fun c => !c.isEmpty)

/-- The per-table cleanup applied to every table chunk before it is handed
to the merger: drop marker rows, then dropna(how="all"). -/
def cleanTable (c : Grid) : Grid :=
  dropAllNa (c.filter (fun rw =>
    !(containsSub "ファイル名:".data (col0Of rw).data
      || containsSub "---".data (col0Of rw).data)))

/-- list.insert of Python: positions past the end append. -/
def insertAt : List String → Nat → String → List String
  | l, 0, x => x :: l
  | [], _ + 1, x => [x]
  | y :: ys, n + 1, x => y :: insertAt ys n x

/-- The incremental master-item-order update: walk the incoming item list
keeping the insertion position one past the last incoming label found in
the evolving master list; labels already present move the position to just
after themselves, labels not present are inserted at the position. -/
def moFold : List String → Nat → List String → List String
  | cur, _, [] => cur
  | cur, pos, it :: rest =>
    match cur.findIdx? (fun y => y == it) with
    | some k => moFold cur (k + 1) rest
    | none => moFold (insertAt cur pos it) (pos + 1) rest

/-- One master-item-order update: an empty master order is seeded by
extending it with the whole incoming item list, otherwise the incoming
labels are folded in with the insert-after-last-anchor rule (the initial
last_known_index of -1 makes the first insertion position 0). -/
def masterOrderStep (cur : List String) (items : List String) : List String :=
  if cur.isEmpty then cur ++ items else moFold cur 0 items

/-- The contribution of one file's table chunks to a slot: the chunk at
that position, cleaned; skipped when the cleaned chunk is empty, the
merger returns no frame, or the frame is empty. -/
def contrib (mode : Mode) (tcs : List Grid) (i : Nat) : Option (Frame × List String) :=
  match tcs.get? i with
  | none => none
  | some c =>
    let cc := cleanTable c
    if cc.isEmpty then none
    else
      let pr := mergerFor mode cc
      match pr.1 with
      | none => none
      | some f => if f.labels.isEmpty then none else some (f, pr.2)

/-- Left-merge one per-chunk frame into the accumulated slot frame:
incoming period columns whose header already exists in the accumulator are
dropped, the remaining ones are joined on the label column. -/
def mergeStep (acc : Frame) (inc : Frame) : Frame :=
  let newCols := inc.cols.filter (fun pc => !(acc.cols.any (fun ac => ac.1 == pc.1)))
  { labels := acc.labels
    cols := acc.cols ++ newCols.map (fun pc =>
      (pc.1, acc.labels.map (fun l =>
        match inc.labels.findIdx? (fun y => y == l) with
        | none => none
        | some i => (pc.2.get? i).getD none))) }

/-- str.replace("年度", "") on a character list: delete every
(non-overlapping, left-to-right) occurrence of the two-character 年度. -/
def removeNendo : List Char → List Char
  | [] => []
  | [c] => [c]
  | c :: d :: rest =>
    if c = '年' && d = '度' then removeNendo rest
    else c :: removeNendo (d :: rest)

/-- The digit characters surviving the sort-key normalization chain of the
source's sort_key closure: uppercase, delete "/", replace Q by 0, delete
年度, then 年, then 月, and keep the digits. -/
def sortKeyDigits (s : String) : List Char :=
  ((((removeNendo (((s.data.map Char.toUpper).filter (fun c => c ≠ '/')).map
    (fun c => if c = 'Q' then '0' else c))).filter (fun c => c ≠ '年')).filter
    (fun c => c ≠ '月')).filter Char.isDigit)

/-- sort_key from the source: the surviving digits, right-padded with
zeros to six characters, read as a number; no digits gives the sentinel. -/
def sort_key (s : String) : Nat :=
  if (sortKeyDigits s).isEmpty then 99999999
  else digitsVal (sortKeyDigits s ++ List.replicate (6 - (sortKeyDigits s).length) '0')

/-- sorted(year_cols, key=sort_key): Python's stable ascending sort by the
numeric key (with a total key comparison, every stable sort agrees). -/
def sortYearCols (l : List String) : List String :=
  List.insertionSort (fun a b => sort_key a ≤ sort_key b) l

/-- Strip the ordinal disambiguation suffix: the regex replacement of
_temp_\d+$ by the empty string. -/
def stripTemp (s : String) : String :=
  let r := s.data.reverse
  let ds := r.takeWhile Char.isDigit
  if ds.isEmpty then s
  else
    let r2 := r.drop ds.length
    if ("_temp_".data.reverse).isPrefixOf r2 then ⟨(r2.drop 6).reverse⟩ else s

/-- The final per-slot output frame: label column plus integer period
columns in chronological order. -/
structure FinalFrame where
  labels : List String
  cols : List (String × List Int)
deriving DecidableEq, Repr

/-- The cell lists of one period column of a merged frame (empty when the
header is absent). -/
def colValsOf (m : Frame) (h : String) : List (Option Int) :=
  ((m.cols.find? (fun pc => pc.1 == h)).map (fun pc => pc.2)).getD []

/-- Build one slot's summary: seed the accumulator with the master item
order, left-merge every frame dropping duplicate period columns, fill the
remaining NaN cells with zero, sort the period columns chronologically,
cast to integers and strip the catch-all disambiguation suffix. -/
def finalizeSlot (order : List String) (frames : List Frame) : FinalFrame :=
  let m := frames.foldl mergeStep ⟨order, []⟩
  let hdrs := sortYearCols (m.cols.map (fun pc => pc.1))
  { labels := m.labels.map stripTemp
    cols := hdrs.map (fun h => (h, (colValsOf m h).map (fun oc => oc.getD 0))) }

/-- process_files_and_tables from the source, starting from the sheet
already read into a grid (the workbook read is external I/O): cast column
0 to strings, segment into file chunks and table chunks, run the selected
merger per chunk, group frames by table-slot position, maintain the
per-slot master item order, and emit one summary frame per populated slot
in ascending slot order. -/
def process_files_and_tables (g : Grid) (mode : Mode) : List FinalFrame :=
  let df := astype0 g
  let tcss := (fileChunks df).map tableChunks
  let n := (tcss.map List.length).foldr max 0
  (List.range n).filterMap (fun i =>
    let contribs := tcss.filterMap (fun tcs => contrib mode tcs i)
    if contribs.isEmpty then none
    else
      let order := contribs.foldl (fun cur pr => masterOrderStep cur pr.2) []
      some (finalizeSlot order (contribs.map (fun pr => pr.1))))

/-- One page of an abstract PDF document: its extracted text and its
extracted tables (a table is a list of rows of nullable cell strings). -/
structure PdfPage where
  text : String
  tables : List (List (List (Option String)))

/-- An abstract uploaded PDF document. -/
structure PdfDoc where
  name : String
  pages : List PdfPage

/-- The user-facing messages the extraction tool can emit (st.error /
st.warning calls, modelled by which call fires and for which file). -/
inductive Diag
  | noKeywords
  | invalidRange (name : String)
  | notFound (name : String)
deriving DecidableEq, Repr

/-- Resolve the page range of one file: a per-file entry overrides both
global bounds; a missing or falsy (zero) start means the first page and a
missing or falsy end means the last page; the end index is clamped to the
page count. -/
def resolveRange (doc : PdfDoc) (gs ge : Option Nat)
    (ranges : List (String × Option Nat × Option Nat)) : Nat × Nat :=
  let ov := ranges.find? (fun r => r.1 == doc.name)
  let cs := match ov with | some r => r.2.1 | none => gs
  let ce := match ov with | some r => r.2.2 | none => ge
  let sIdx := match cs with
    | some n => if n = 0 then 0 else n - 1
    | none => 0
  let eIdx := match ce with
    | some n => if n = 0 then doc.pages.length else n
    | none => doc.pages.length
  (sIdx, min eIdx doc.pages.length)

/-- Cell cleanup of one extracted table row: None becomes the empty
string, newlines become spaces. -/
def cleanRow (row : List (Option String)) : Row :=
  row.map (fun it => some (match it with
    | none => ""
    | some s => ⟨s.data.map (fun c => if c = '\n' then ' ' else c)⟩))

/-- The rows and diagnostics one file contributes: its file-name marker
row and a blank row always; then, if its resolved page range is invalid,
only a skip warning; otherwise for every page in range whose text contains
a keyword, a page/table marker row, the cleaned rows and a trailing blank
row per nonempty table, plus a not-found warning when no page matched. -/
def perFile (kwds : List String) (gs ge : Option Nat)
    (ranges : List (String × Option Nat × Option Nat)) (doc : PdfDoc) :
    List Row × List Diag :=
  let base : List Row := [[some ("ファイル名: " ++ doc.name)], []]
  let se := resolveRange doc gs ge ranges
  if se.2 ≤ se.1 then (base, [Diag.invalidRange doc.name])
  else
    let pages := (doc.pages.drop se.1).take (se.2 - se.1)
    let found := pages.any (fun p => kwds.any (fun kw => containsSub kw.data p.text.data))
    let rows := ((List.range pages.length).zip pages).flatMap (fun ip =>
      if kwds.any (fun kw => containsSub kw.data ip.2.text.data) then
        ((List.range ip.2.tables.length).zip ip.2.tables).flatMap (fun tt =>
          if tt.2.isEmpty then []
          else
            [[some ("--- ページ " ++ toString (se.1 + ip.1 + 1)
              ++ " / テーブル " ++ toString (tt.1 + 1) ++ " ---")]]
            ++ tt.2.map cleanRow ++ [[]])
      else [])
    (base ++ rows, if found then [] else [Diag.notFound doc.name])

/-- extract_tables_from_multiple_pdfs from the source (the pdfplumber
exception path is outside this model): empty keywords abort with an error
and no result; otherwise every file contributes its rows and diagnostics
independently, and the run returns no grid when every collected row is
empty. -/
def extract_tables_from_multiple_pdfs (docs : List PdfDoc) (kwds : List String)
    (gs ge : Option Nat) (ranges : List (String × Option Nat × Option Nat)) :
    Option (List Row) × List Diag :=
  if kwds.isEmpty then (none, [Diag.noKeywords])
  else
    let per := docs.map (perFile kwds gs ge ranges)
    let allRows := per.flatMap (fun pr => pr.1)
    let diags := per.flatMap (fun pr => pr.2)
    (if allRows.all (fun r => r.isEmpty) then none else some allRows, diags)

/-- The ordinal-suffixed labels the disambiguation mints for a run of n
catch-all rows, starting at ordinal k. -/
def sonotaTags : Nat → Nat → List String
  | _, 0 => []
  | k, n + 1 => ("その他_temp_" ++ toString k) :: sonotaTags (k + 1) n

/-- The label/value pairs a vertical slice of n catch-all rows produces:
each row under its minted ordinal label, starting at ordinal k. -/
def sonotaSlice : Nat → List (String × Int) → List (String × Int)
  | _, [] => []
  | k, p :: ps => ("その他_temp_" ++ toString k, p.2) :: sonotaSlice (k + 1) ps

/-- A table chunk of one period header over n rows all labelled exactly
その他, the n-th row carrying the n-th value string. -/
def sonotaChunk (ps : List (String × Int)) : Grid :=
  [some "", some "2024Q1"] :: ps.map (fun p => [some "その他", some p.1])

/-- The same table as a whole consolidation sheet: a file marker row and a
page/table marker row above the chunk. -/
def sonotaGrid (ps : List (String × Int)) : Grid :=
  [some "ファイル名: f.pdf", none] :: [some "--- ページ 1 / テーブル 1 ---", none] ::
    sonotaChunk ps

/-- C1: period detection applies the notation matchers in the fixed order
and returns the canonical label of the first matcher that matches, or none
when no matcher matches; the quoted concrete values hold, and any cell
whose stripped text carries a quarter-code match resolves via the quarter
rule regardless of the other patterns. The function is a pure total Lean
function, hence deterministic. -/
theorem claim_C1 :
    detect_year_header "2024Q1" = some "2024Q1" ∧
    detect_year_header "(自 2024年4月" = some "2024/4" ∧
    detect_year_header "2024年3月期" ≠ none ∧
    detect_year_header "'24/3" = some "2024/3" ∧
    detect_year_header "202403" = some "202403" ∧
    detect_year_header "hello" = none ∧
    ∀ (s r : String), searchO p1At (pyStripL s.data) = some r →
      detect_year_header s = some r := by
  refine ⟨by decide, by decide, by decide, by decide, by decide, by decide, ?_⟩
  intro s r h
  unfold detect_year_header
  simp only [h]

/-- Witness for C1: a cell matching both the quarter pattern and the
generic YYYY/M pattern resolves via the quarter rule. -/
theorem claim_C1_witness :
    searchO p1At (pyStripL ("売上 2024/5 と 2024Q3").data) = some "2024Q3" ∧
    detect_year_header "売上 2024/5 と 2024Q3" = some "2024Q3" :=
  ⟨by decide, claim_C1.2.2.2.2.2.2 "売上 2024/5 と 2024Q3" "2024Q3" (by decide)⟩

/-- A value string that to_numeric parses to a number is not blank. -/
theorem valParse_ne_blank (s : String) (v : Int) (h : valParse s = some v) :
    (pyStripL s.data).isEmpty = false := by
  by_contra hc
  rw [Bool.not_eq_false] at hc
  have hall : ∀ c ∈ s.data, isPySpace c := by
    have h1 : ((s.data.dropWhile isPySpace).reverse.dropWhile isPySpace).reverse = [] := by
      simpa [pyStripL, List.isEmpty_iff] using hc
    rw [List.reverse_eq_nil_iff] at h1
    have h3 : ∀ x ∈ s.data.dropWhile isPySpace, isPySpace x = true :=
      fun x hx => List.dropWhile_eq_nil_iff.mp h1 x (List.mem_reverse.mpr hx)
    intro c hcm
    rcases List.mem_append.mp
        ((List.takeWhile_append_dropWhile (p := isPySpace) (l := s.data)) ▸ hcm) with h4 | h4
    · exact List.mem_takeWhile_imp h4
    · exact h3 c h4
  have ht : pyStripL (s.data.filter (fun c => c ≠ ',')) = [] := by
    have h5 : (s.data.filter (fun c => c ≠ ',')).dropWhile isPySpace = [] :=
      List.dropWhile_eq_nil_iff.mpr
        (fun x hx => hall x (List.mem_of_mem_filter hx))
    show (((s.data.filter (fun c => c ≠ ',')).dropWhile isPySpace).reverse.dropWhile
        isPySpace).reverse = []
    rw [h5]
    rfl
  rw [valParse, parseNum] at h
  simp only [ht] at h
  simp at h

/-- On a chunk with a detected header row above two rows sharing one
label, the period scan sees only the header cell whenever the two value
strings carry no period notation of their own. -/
theorem yearCells_dup_chunk (s1 s2 : String)
    (hd1 : detect_year_header s1 = none) (hd2 : detect_year_header s2 = none) :
    yearCells [[some "", some "2024Q1"], [some "A", some s1], [some "A", some s2]] =
      [(0, 1, "2024Q1")] := by
  have h10 : detect_year_header (pyStr (cellAt
      [[some "", some "2024Q1"], [some "A", some s1], [some "A", some s2]] 1 1)) = none := hd1
  have h21 : detect_year_header (pyStr (cellAt
      [[some "", some "2024Q1"], [some "A", some s1], [some "A", some s2]] 2 1)) = none := hd2
  have d00 : detect_year_header (pyStr (cellAt
      [[some "", some "2024Q1"], [some "A", some s1], [some "A", some s2]] 0 0)) = none := rfl
  have d01 : detect_year_header (pyStr (cellAt
      [[some "", some "2024Q1"], [some "A", some s1], [some "A", some s2]] 0 1)) =
      some "2024Q1" := rfl
  have d10 : detect_year_header (pyStr (cellAt
      [[some "", some "2024Q1"], [some "A", some s1], [some "A", some s2]] 1 0)) = none := rfl
  have d20 : detect_year_header (pyStr (cellAt
      [[some "", some "2024Q1"], [some "A", some s1], [some "A", some s2]] 2 0)) = none := rfl
  simp only [yearCells]
  simp only [show List.range (List.length
      [[some "", some "2024Q1"], [some "A", some s1], [some "A", some s2]]) = [0, 1, 2] from rfl]
  simp only [show List.range (gridNumCols
      [[some "", some "2024Q1"], [some "A", some s1], [some "A", some s2]]) = [0, 1] from rfl]
  simp only [List.flatMap_cons, List.flatMap_nil, List.filterMap_cons, List.filterMap_nil]
  simp only [d00, d01, d10, d20, h10, h21]
  simp

/-- C2: on one chunk whose header row sits above two data rows carrying
the same label A, the horizontal merger outputs the single row A valued at
the SUM of the two parsed values, while the vertical merger keeps only the
first occurrence's value — for arbitrary numeric value strings; the sum
policy lives in the horizontal group-and-sum stage and the keep-first
policy in the vertical duplicate drop, for arbitrary values. -/
theorem claim_C2 :
    (∀ (s1 s2 : String) (v1 v2 : Int), valParse s1 = some v1 → valParse s2 = some v2 →
      tool2_extract_data_horizontal
          [[some "", some "2024Q1"], [some "A", some s1], [some "A", some s2]] =
        (some ⟨["A"], [("2024Q1", [some (v1 + v2)])]⟩, ["A"])) ∧
    (∀ (s1 s2 : String) (v1 : Int), valParse s1 = some v1 →
      detect_year_header s1 = none → detect_year_header s2 = none →
      tool2_extract_data_vertical
          [[some "", some "2024Q1"], [some "A", some s1], [some "A", some s2]] =
        (some ⟨["A"], [("2024Q1", [some v1])]⟩, ["A"])) ∧
    (∀ v1 v2 : Int, groupSum [("A", v1), ("A", v2)] = [("A", v1 + v2)]) ∧
    (∀ v1 v2 : Int, dedupByLabel [("A", v1), ("A", v2)] = [("A", v1)]) := by
  refine ⟨?_, ?_, ?_, ?_⟩
  · intro s1 s2 v1 v2 hp1 hp2
    have hc1 : hCellStr (some s1) = s1 := by
      simp [hCellStr, valParse_ne_blank s1 v1 hp1]
    have hc2 : hCellStr (some s2) = s2 := by
      simp [hCellStr, valParse_ne_blank s2 v2 hp2]
    have e1 : tool2_extract_data_horizontal
        [[some "", some "2024Q1"], [some "A", some s1], [some "A", some s2]] =
        (let grouped := groupSum (sonotaTagP
          (List.filterMap (fun p => (valParse p.2).map (fun v => (p.1, v)))
            [("A", hCellStr (some s1)), ("A", hCellStr (some s2))]) 0);
         (some ⟨grouped.map (fun p => p.1), [("2024Q1", grouped.map (fun p => some p.2))]⟩,
          grouped.map (fun p => p.1))) := rfl
    rw [e1, hc1, hc2]
    simp only [List.filterMap_cons, List.filterMap_nil, hp1, hp2, Option.map_some']
    have e3 : sonotaTagP [("A", v1), ("A", v2)] 0 = [("A", v1), ("A", v2)] := rfl
    have e4 : groupSum [("A", v1), ("A", v2)] = [("A", 0 + v1 + v2)] := rfl
    simp only [e3, e4]
    simp
  · intro s1 s2 v1 hp1 hd1 hd2
    have e1 : tool2_extract_data_vertical
        [[some "", some "2024Q1"], [some "A", some s1], [some "A", some s2]] =
        (if (yearCells [[some "", some "2024Q1"], [some "A", some s1],
            [some "A", some s2]]).isEmpty then ((none : Option Frame), ([] : List String))
         else (some ⟨["A"], vertFold [[some "", some "2024Q1"], [some "A", some s1],
            [some "A", some s2]] ["A"] (yearCells [[some "", some "2024Q1"],
            [some "A", some s1], [some "A", some s2]]) []⟩, ["A"])) := rfl
    rw [e1, yearCells_dup_chunk s1 s2 hd1 hd2]
    have e2 : vertFold [[some "", some "2024Q1"], [some "A", some s1], [some "A", some s2]]
        ["A"] [(0, 1, "2024Q1")] [] =
        [("2024Q1", [some ((valParse s1).getD 0)])] := rfl
    simp only [List.isEmpty_cons, Bool.false_eq_true, if_false, e2, hp1]
    rfl
  · intro v1 v2
    simp [groupSum, dedupFirst, dedupFirstAux]
  · intro v1 v2
    rfl

/-- Witness for C2: the claim's own instance — two A rows valued 100 and
50 merge to A = 150 horizontally and to A = 100 vertically. -/
theorem claim_C2_witness :
    valParse "100" = some 100 ∧ valParse "50" = some 50 ∧
    tool2_extract_data_horizontal
        [[some "", some "2024Q1"], [some "A", some "100"], [some "A", some "50"]] =
      (some ⟨["A"], [("2024Q1", [some 150])]⟩, ["A"]) ∧
    tool2_extract_data_vertical
        [[some "", some "2024Q1"], [some "A", some "100"], [some "A", some "50"]] =
      (some ⟨["A"], [("2024Q1", [some 100])]⟩, ["A"]) :=
  ⟨by decide, by decide,
    (claim_C2.1 "100" "50" 100 50 (by decide) (by decide)).trans (by decide),
    claim_C2.2.1 "100" "50" 100 (by decide) (by decide) (by decide)⟩

/-- C3: an empty master order is seeded with the incoming frame's whole
item list (so a slot's order starts as its first frame's item list), and
the frames [A,B,C] then [A,D,B] produce the master order [A,D,B,C], the
new label D being inserted right after its last known predecessor A rather
than appended. -/
theorem claim_C3 :
    (∀ items : List String, masterOrderStep [] items = items) ∧
    (∀ (items : List String) (rest : List (List String)),
      List.foldl masterOrderStep [] (items :: rest) = List.foldl masterOrderStep items rest) ∧
    masterOrderStep (masterOrderStep [] ["A", "B", "C"]) ["A", "D", "B"] =
      ["A", "D", "B", "C"] := by
  refine ⟨?_, ?_, by decide⟩
  · intro items
    simp [masterOrderStep]
  · intro items rest
    simp [masterOrderStep]

/-- The digit character of a value below ten is a decimal digit. -/
theorem digitChar_isDigit (n : Nat) (h : n < 10) : (Nat.digitChar n).isDigit = true := by
  interval_cases n <;> decide

/-- Every character the decimal printer pushes is a digit. -/
theorem toDigitsCore_all_digits : ∀ (fuel n : Nat) (acc : List Char),
    (∀ c ∈ acc, c.isDigit = true) → ∀ c ∈ Nat.toDigitsCore 10 fuel n acc, c.isDigit = true := by
  intro fuel
  induction fuel with
  | zero =>
    intro n acc hacc c hc
    simp only [Nat.toDigitsCore] at hc
    exact hacc c hc
  | succ f ih =>
    intro n acc hacc c hc
    simp only [Nat.toDigitsCore] at hc
    have hd : (Nat.digitChar (n % 10)).isDigit = true :=
      digitChar_isDigit _ (Nat.mod_lt _ (by norm_num))
    by_cases h0 : n / 10 = 0
    · rw [if_pos h0] at hc
      rcases List.mem_cons.mp hc with rfl | hmem
      · exact hd
      · exact hacc c hmem
    · rw [if_neg h0] at hc
      refine ih (n / 10) _ ?_ c hc
      intro x hx
      rcases List.mem_cons.mp hx with rfl | hx2
      · exact hd
      · exact hacc x hx2

/-- The decimal printer never returns an empty list from a nonempty
accumulator. -/
theorem toDigitsCore_ne_nil : ∀ (fuel n : Nat) (acc : List Char), acc ≠ [] →
    Nat.toDigitsCore 10 fuel n acc ≠ [] := by
  intro fuel
  induction fuel with
  | zero =>
    intro n acc h
    simpa [Nat.toDigitsCore] using h
  | succ f ih =>
    intro n acc h
    simp only [Nat.toDigitsCore]
    by_cases h0 : n / 10 = 0
    · rw [if_pos h0]
      exact List.cons_ne_nil _ _
    · rw [if_neg h0]
      exact ih _ _ (List.cons_ne_nil _ _)

/-- The decimal string of a natural number is a nonempty run of digit
characters. -/
theorem toString_nat_digits (k : Nat) :
    (∀ c ∈ (toString k).data, c.isDigit = true) ∧ (toString k).data ≠ [] := by
  have he : (toString k).data = Nat.toDigitsCore 10 (k + 1) k [] := rfl
  rw [he]
  refine ⟨toDigitsCore_all_digits (k + 1) k [] (by simp), ?_⟩
  simp only [Nat.toDigitsCore]
  by_cases h0 : k / 10 = 0
  · rw [if_pos h0]
    exact List.cons_ne_nil _ _
  · rw [if_neg h0]
    exact toDigitsCore_ne_nil _ _ _ (List.cons_ne_nil _ _)

/-- takeWhile swallows a whole prefix all of whose characters satisfy the
predicate. -/
theorem takeWhile_append_all (p : Char → Bool) :
    ∀ (l1 l2 : List Char), (∀ c ∈ l1, p c = true) →
      List.takeWhile p (l1 ++ l2) = l1 ++ List.takeWhile p l2 := by
  intro l1
  induction l1 with
  | nil => simp
  | cons a t ih =>
    intro l2 h
    have ha : p a = true := h a (by simp)
    simp [List.takeWhile_cons, ha, ih l2 (fun c hc => h c (by simp [hc]))]

/-- Stripping the ordinal suffix restores the catch-all label for every
ordinal. -/
theorem stripTemp_sonota (k : Nat) : stripTemp ("その他_temp_" ++ toString k) = "その他" := by
  obtain ⟨hdig, hne⟩ := toString_nat_digits k
  have hdata : ("その他_temp_" ++ toString k).data = "その他_temp_".data ++ (toString k).data :=
    String.data_append _ _
  have h1 : ("その他_temp_" ++ toString k).data.reverse =
      (toString k).data.reverse ++ "その他_temp_".data.reverse := by
    rw [hdata, List.reverse_append]
  have h2 : List.takeWhile Char.isDigit
      ((toString k).data.reverse ++ "その他_temp_".data.reverse) =
      (toString k).data.reverse := by
    rw [takeWhile_append_all Char.isDigit _ _ (fun c hc => hdig c (List.mem_reverse.mp hc))]
    rw [show List.takeWhile Char.isDigit "その他_temp_".data.reverse = [] from rfl,
      List.append_nil]
  have h3 : ((toString k).data.reverse).isEmpty = false := by
    simp [List.isEmpty_iff, hne]
  have h4 : ((toString k).data.reverse ++ "その他_temp_".data.reverse).drop
      (toString k).data.reverse.length = "その他_temp_".data.reverse :=
    List.drop_left _ _
  simp only [stripTemp, h1, h2, h3, Bool.false_eq_true, if_false, h4]
  rfl

/-- The value of a digit character, inverse of Nat.digitChar below 10. -/
theorem digitChar_sub_val (m : Nat) (h : m < 10) : (Nat.digitChar m).toNat - '0'.toNat = m := by
  interval_cases m <;> decide

/-- Appending one digit multiplies the accumulated value by ten. -/
theorem digitsVal_append_singleton (l : List Char) (c : Char) :
    digitsVal (l ++ [c]) = digitsVal l * 10 + (c.toNat - '0'.toNat) := by
  simp [digitsVal, List.foldl_append]

/-- The decimal rendering accumulator splits off as a suffix. -/
theorem toDigitsCore_append10 : ∀ (fuel n : Nat) (acc : List Char),
    Nat.toDigitsCore 10 fuel n acc = Nat.toDigitsCore 10 fuel n [] ++ acc := by
  intro fuel
  induction fuel with
  | zero =>
    intro n acc
    simp [Nat.toDigitsCore]
  | succ f ih =>
    intro n acc
    simp only [Nat.toDigitsCore]
    by_cases h0 : n / 10 = 0
    · rw [if_pos h0, if_pos h0]
      rfl
    · rw [if_neg h0, if_neg h0]
      rw [ih (n / 10) (Nat.digitChar (n % 10) :: acc), ih (n / 10) [Nat.digitChar (n % 10)]]
      simp

/-- Reading the decimal rendering back gives the number (enough fuel). -/
theorem digitsVal_toDigitsCore : ∀ (fuel n : Nat), n < 10 ^ fuel →
    digitsVal (Nat.toDigitsCore 10 fuel n []) = n := by
  intro fuel
  induction fuel with
  | zero =>
    intro n h
    have hn : n = 0 := by simpa using h
    subst hn
    rfl
  | succ f ih =>
    intro n h
    simp only [Nat.toDigitsCore]
    by_cases h0 : n / 10 = 0
    · rw [if_pos h0]
      have hm : n % 10 < 10 := Nat.mod_lt _ (by norm_num)
      have hv : digitsVal [Nat.digitChar (n % 10)] =
          (Nat.digitChar (n % 10)).toNat - '0'.toNat := by
        simp [digitsVal]
      rw [hv, digitChar_sub_val _ hm]
      omega
    · rw [if_neg h0]
      rw [toDigitsCore_append10, digitsVal_append_singleton]
      have hlt : n / 10 < 10 ^ f := by
        rw [Nat.div_lt_iff_lt_mul (by norm_num : (0 : Nat) < 10)]
        calc n < 10 ^ (f + 1) := h
        _ = 10 ^ f * 10 := by ring
      rw [ih (n / 10) hlt]
      have hm : n % 10 < 10 := Nat.mod_lt _ (by norm_num)
      rw [digitChar_sub_val _ hm]
      omega

/-- Reading toString back gives the number. -/
theorem digitsVal_toString (n : Nat) : digitsVal (toString n).data = n := by
  have he : (toString n).data = Nat.toDigitsCore 10 (n + 1) n [] := rfl
  rw [he]
  refine digitsVal_toDigitsCore (n + 1) n ?_
  calc n < 10 ^ n := Nat.lt_pow_self (by norm_num) n
  _ ≤ 10 ^ (n + 1) := Nat.pow_le_pow_right (by norm_num) (by omega)

/-- Decimal rendering of naturals is injective. -/
theorem toString_nat_inj {m n : Nat} (h : toString m = toString n) : m = n := by
  have h2 := congrArg (fun s : String => digitsVal s.data) h
  simpa [digitsVal_toString] using h2

/-- A minted tag with a smaller ordinal never reappears later in the run. -/
theorem sonotaTags_not_mem : ∀ (n k j : Nat), j < k →
    ("その他_temp_" ++ toString j) ∉ sonotaTags k n := by
  intro n
  induction n with
  | zero =>
    intro k j _
    simp [sonotaTags]
  | succ m ih =>
    intro k j h hmem
    rcases List.mem_cons.mp hmem with he | hmem2
    · have hd := congrArg String.data he
      rw [String.data_append, String.data_append] at hd
      have : j = k := toString_nat_inj (String.ext (List.append_cancel_left hd))
      omega
    · exact ih (k + 1) j (by omega) hmem2

/-- The minted ordinal labels are pairwise distinct for every run length. -/
theorem sonotaTags_nodup : ∀ (n k : Nat), (sonotaTags k n).Nodup := by
  intro n
  induction n with
  | zero =>
    intro k
    simp [sonotaTags]
  | succ m ih =>
    intro k
    rw [show sonotaTags k (m + 1) = ("その他_temp_" ++ toString k) :: sonotaTags (k + 1) m from rfl]
    rw [List.nodup_cons]
    exact ⟨sonotaTags_not_mem m (k + 1) k (by omega), ih (k + 1)⟩

/-- A run of n catch-all rows mints exactly n labels. -/
theorem sonotaTags_length : ∀ (n k : Nat), (sonotaTags k n).length = n := by
  intro n
  induction n with
  | zero => intro k; rfl
  | succ m ih => intro k; simp [sonotaTags, ih]

/-- Stripping the suffix of every minted label restores the catch-all
label. -/
theorem sonotaTags_stripTemp : ∀ (n k : Nat),
    (sonotaTags k n).map stripTemp = List.replicate n "その他" := by
  intro n
  induction n with
  | zero => intro k; rfl
  | succ m ih =>
    intro k
    simp only [sonotaTags, List.map_cons, ih, List.replicate_succ, stripTemp_sonota]

/-- The labels of the expected slice are the minted tags. -/
theorem sonotaSlice_fst : ∀ (ps : List (String × Int)) (k : Nat),
    (sonotaSlice k ps).map Prod.fst = sonotaTags k ps.length := by
  intro ps
  induction ps with
  | nil => intro k; rfl
  | cons p ps ih =>
    intro k
    simp only [sonotaSlice, List.map_cons, List.length_cons, sonotaTags, ih]

/-- The values of the expected slice are the input values in order. -/
theorem sonotaSlice_snd : ∀ (ps : List (String × Int)) (k : Nat),
    (sonotaSlice k ps).map (fun q => some q.2) = ps.map (fun p => some p.2) := by
  intro ps
  induction ps with
  | nil => intro k; rfl
  | cons p ps ih =>
    intro k
    simp only [sonotaSlice, List.map_cons, ih]

/-- drop_duplicates is the identity on a duplicate-free unseen list. -/
theorem dedupFirstAux_of_nodup : ∀ (l : List String) (seen : List String),
    l.Nodup → (∀ x ∈ l, seen.contains x = false) → dedupFirstAux seen l = l := by
  intro l
  induction l with
  | nil => intro seen _ _; rfl
  | cons x xs ih =>
    intro seen hnd hs
    rw [List.nodup_cons] at hnd
    simp only [dedupFirstAux]
    rw [hs x (by simp)]
    simp only [Bool.false_eq_true, if_false]
    rw [ih (x :: seen) hnd.2]
    intro y hy
    simp only [List.contains_cons, Bool.or_eq_false_iff]
    constructor
    · rw [beq_eq_false_iff_ne]
      intro he
      exact hnd.1 (he ▸ hy)
    · exact hs y (List.mem_cons_of_mem _ hy)

/-- drop_duplicates is the identity on a duplicate-free list. -/
theorem dedupFirst_of_nodup (l : List String) (h : l.Nodup) : dedupFirst l = l :=
  dedupFirstAux_of_nodup l [] h (fun x _ => rfl)

/-- Label-keyed drop_duplicates is the identity when the labels are
duplicate-free and unseen. -/
theorem dedupByLabelAux_of_nodup : ∀ (l : List (String × Int)) (seen : List String),
    (l.map Prod.fst).Nodup → (∀ x ∈ l.map Prod.fst, seen.contains x = false) →
    dedupByLabelAux seen l = l := by
  intro l
  induction l with
  | nil => intro seen _ _; rfl
  | cons p ps ih =>
    intro seen hnd hs
    rw [List.map_cons, List.nodup_cons] at hnd
    simp only [dedupByLabelAux]
    rw [hs p.1 (by simp)]
    simp only [Bool.false_eq_true, if_false]
    rw [ih (p.1 :: seen) hnd.2]
    intro y hy
    simp only [List.contains_cons, Bool.or_eq_false_iff]
    constructor
    · rw [beq_eq_false_iff_ne]
      intro he
      exact hnd.1 (he ▸ hy)
    · exact hs y (List.mem_cons_of_mem _ hy)

/-- Label-keyed drop_duplicates is the identity on duplicate-free
labels. -/
theorem dedupByLabel_of_nodup (l : List (String × Int)) (h : (l.map Prod.fst).Nodup) :
    dedupByLabel l = l :=
  dedupByLabelAux_of_nodup l [] h (fun x _ => rfl)

/-- Looking every label of a duplicate-free pair list up in that same list
returns its own value. -/
theorem lookupVal_self : ∀ (prs : List (String × Int)), (prs.map Prod.fst).Nodup →
    (prs.map Prod.fst).map (fun l => lookupVal prs l) = prs.map (fun p => some p.2) := by
  intro prs
  induction prs with
  | nil => intro _; rfl
  | cons q prs ih =>
    intro hnd
    rw [List.map_cons, List.nodup_cons] at hnd
    simp only [List.map_cons]
    have hhd : lookupVal (q :: prs) q.1 = some q.2 := by
      unfold lookupVal
      rw [List.find?_cons_of_pos _ (by simp)]
      rfl
    rw [hhd]
    congr 1
    have hstep : ∀ x ∈ prs.map Prod.fst, lookupVal (q :: prs) x = lookupVal prs x := by
      intro x hx
      have hxq : (q.1 == x) = false := by
        rw [beq_eq_false_iff_ne]
        intro he
        exact hnd.1 (he ▸ hx)
      unfold lookupVal
      simp only [List.find?, hxq]
    rw [List.map_congr_left hstep, ih hnd.2]

/-- The merge's positional re-lookup of every label of a duplicate-free
label column restores the value column. -/
theorem selfIdxLookup : ∀ (labels : List String) (vals : List (Option Int)),
    labels.Nodup → vals.length = labels.length →
    labels.map (fun l =>
      match labels.findIdx? (fun y => y == l) with
      | none => (none : Option Int)
      | some i => (vals.get? i).getD none) = vals := by
  intro labels
  induction labels with
  | nil =>
    intro vals _ hlen
    rw [List.length_eq_zero.mp hlen]
    rfl
  | cons a ls ih =>
    intro vals hnd hlen
    rw [List.nodup_cons] at hnd
    obtain ⟨v, vs, rfl⟩ : ∃ v vs, vals = v :: vs := by
      cases vals with
      | nil => simp at hlen
      | cons v vs => exact ⟨v, vs, rfl⟩
    simp only [List.length_cons, Nat.succ_inj] at hlen
    simp only [List.map_cons]
    have hhd : (match (a :: ls).findIdx? (fun y => y == a) with
        | none => (none : Option Int)
        | some i => ((v :: vs).get? i).getD none) = v := by
      rw [List.findIdx?_cons]
      simp only [beq_self_eq_true, if_true]
      rfl
    rw [hhd]
    congr 1
    have hstep : ∀ l ∈ ls,
        (match (a :: ls).findIdx? (fun y => y == l) with
         | none => (none : Option Int)
         | some i => ((v :: vs).get? i).getD none) =
        (match ls.findIdx? (fun y => y == l) with
         | none => (none : Option Int)
         | some i => (vs.get? i).getD none) := by
      intro l hl
      rw [List.findIdx?_cons]
      have hne : ((a == l) = false) := by
        rw [beq_eq_false_iff_ne]
        intro he
        exact hnd.1 (he ▸ hl)
      rw [hne]
      simp only [Bool.false_eq_true, if_false]
      rw [List.findIdx?_succ]
      cases hq : ls.findIdx? (fun y => y == l) with
      | none => simp
      | some i => simp
    rw [List.map_congr_left hstep, ih vs hnd.2 hlen]

/-- A flatMap over an index range where only index zero contributes. -/
theorem flatMap_range_zero {α : Type} (n : Nat) (f : Nat → List α)
    (h : ∀ r, 0 < r → f r = []) : (List.range (n + 1)).flatMap f = f 0 := by
  induction n with
  | zero =>
    rw [show List.range 1 = [0] from rfl]
    simp
  | succ m ih =>
    rw [List.range_succ, List.flatMap_append, ih]
    simp [h (m + 1) (by omega)]

/-- Appending rows that all fail the marker predicate leaves the marker
index list unchanged. -/
theorem markerIdxs_append_false (pre suf : Grid) (p : Row → Bool)
    (h : ∀ r ∈ suf, p r = false) :
    markerIdxs (pre ++ suf) p = markerIdxs pre p := by
  unfold markerIdxs
  rw [List.length_append, List.range_add, List.filter_append]
  have h1 : (List.range pre.length).filter
      (fun i => p ((((pre ++ suf).get? i)).getD [])) =
      (List.range pre.length).filter (fun i => p (((pre.get? i)).getD [])) := by
    refine List.filter_congr ?_
    intro i hi
    rw [List.mem_range] at hi
    rw [List.get?_append hi]
  have h2 : ((List.range suf.length).map (pre.length + ·)).filter
      (fun i => p ((((pre ++ suf).get? i)).getD [])) = [] := by
    rw [List.filter_eq_nil_iff]
    intro a ha
    obtain ⟨j, hj, rfl⟩ := List.mem_map.mp ha
    rw [List.mem_range] at hj
    rw [List.get?_append_right (by omega)]
    have hidx : pre.length + j - pre.length = j := by omega
    rw [hidx]
    obtain ⟨r, hw⟩ : ∃ r, suf.get? j = some r := by
      cases hq : suf.get? j with
      | some r => exact ⟨r, rfl⟩
      | none => rw [List.get?_eq_none] at hq; omega
    rw [hw]
    simp [h r (List.get?_mem hw)]
  rw [h1, h2, List.append_nil]

/-- Tagging a run of n catch-all labels mints the n ordinal labels. -/
theorem sonotaTag_replicate : ∀ (n k : Nat),
    sonotaTag (List.replicate n "その他") k = sonotaTags k n := by
  intro n
  induction n with
  | zero => intro k; rfl
  | succ m ih =>
    intro k
    rw [List.replicate_succ]
    simp [sonotaTag, sonotaTags, ih]

/-- On the catch-all chunk the only detected period cell is the header
cell, provided no value string itself looks like a period. -/
theorem yearCells_sonotaChunk (ps : List (String × Int))
    (hd : ∀ p ∈ ps, detect_year_header p.1 = none) :
    yearCells (sonotaChunk ps) = [(0, 1, "2024Q1")] := by
  have hdn : detect_year_header "nan" = none := by decide
  have hds : detect_year_header "その他" = none := by decide
  unfold yearCells
  have hlen : (sonotaChunk ps).length = ps.length + 1 := by
    simp [sonotaChunk]
  rw [hlen, flatMap_range_zero]
  · rfl
  · intro r hr
    obtain ⟨j, rfl⟩ : ∃ j, r = j + 1 := ⟨r - 1, by omega⟩
    have hnc : gridNumCols (sonotaChunk ps) = 2 := rfl
    rw [hnc]
    have hget : (sonotaChunk ps).get? (j + 1) =
        (ps.map (fun p => [some "その他", some p.1])).get? j := rfl
    cases hq : (ps.map (fun p => [some "その他", some p.1])).get? j with
    | none =>
      have hc : ∀ c, cellAt (sonotaChunk ps) (j + 1) c = none := by
        intro c
        unfold cellAt
        rw [hget, hq]
        rfl
      rw [show (List.range 2) = [0, 1] from rfl]
      simp [hc, pyStr, hdn]
    | some r =>
      rw [List.get?_map] at hq
      obtain ⟨p, hp, hr2⟩ := Option.map_eq_some'.mp hq
      have hpm : p ∈ ps := List.get?_mem hp
      have hc0 : cellAt (sonotaChunk ps) (j + 1) 0 = some "その他" := by
        unfold cellAt
        rw [hget, List.get?_map, hp]
        rfl
      have hc1 : cellAt (sonotaChunk ps) (j + 1) 1 = some p.1 := by
        unfold cellAt
        rw [hget, List.get?_map, hp]
        rfl
      rw [show (List.range 2) = [0, 1] from rfl]
      simp [hc0, hc1, pyStr, hds, hd p hpm]

/-- The catch-all chunk's stripped nonblank column-0 items are n copies of
the catch-all label. -/
theorem initialItems_sonotaChunk (ps : List (String × Int)) :
    initialItems (sonotaChunk ps) = List.replicate ps.length "その他" := by
  unfold initialItems col0Strs sonotaChunk
  rw [List.map_cons, List.map_cons, List.map_map, List.map_map]
  rw [show pyStrip (pyStr ((([some "", some "2024Q1"] : Row).get? 0).getD none)) = "" from rfl]
  rw [List.filter_cons]
  rw [show (decide (("" : String) ≠ "")) = false from rfl]
  simp only [Bool.false_eq_true, if_false]
  rw [show ps.map ((pyStrip ∘ (fun rw => pyStr ((rw.get? 0).getD none))) ∘
      (fun p : String × Int => [some "その他", some p.1])) =
    ps.map (fun _ => "その他") from List.map_congr_left (fun p _ => rfl)]
  rw [List.filter_eq_self.mpr]
  · rw [List.map_const']
  · intro a ha
    obtain ⟨p, _, rfl⟩ := List.mem_map.mp ha
    decide

/-- Tagging then parsing the catch-all pair run yields the expected slice
whenever every value string parses. -/
theorem sonotaTagP_parse : ∀ (ps : List (String × Int)) (k : Nat),
    (∀ p ∈ ps, valParse p.1 = some p.2) →
    (sonotaTagP (ps.map (fun p => ("その他", some p.1))) k).map
      (fun p => (p.1, (valParse (pyStr p.2)).getD 0)) = sonotaSlice k ps := by
  intro ps
  induction ps with
  | nil => intro k _; rfl
  | cons p ps ih =>
    intro k h
    rw [List.map_cons]
    simp only [sonotaTagP]
    simp only [if_true]
    rw [List.map_cons]
    rw [show pyStr (some p.1) = p.1 from rfl]
    rw [h p (by simp)]
    rw [ih (k + 1) (fun q hq => h q (List.mem_cons_of_mem _ hq))]
    rfl

/-- The vertical slice under the catch-all chunk's header is the expected
slice. -/
theorem vertSlice_sonotaChunk (ps : List (String × Int))
    (hp : ∀ p ∈ ps, valParse p.1 = some p.2) :
    vertSlice (sonotaChunk ps) 0 1 = sonotaSlice 0 ps := by
  have e0 : vertSlice (sonotaChunk ps) 0 1 =
      dedupByLabel ((sonotaTagP ((((ps.map (fun p => [some "その他", some p.1])).map
        (fun rw => (pyStrip (pyStr ((rw.get? 0).getD none)), (rw.get? 1).getD none))).filter
          (fun p => p.1 ≠ ""))) 0).map
        (fun p => (p.1, (valParse (pyStr p.2)).getD 0))) := rfl
  rw [e0]
  rw [List.map_map]
  rw [show ps.map ((fun rw => (pyStrip (pyStr ((rw.get? 0).getD none)), (rw.get? 1).getD none)) ∘
      (fun p : String × Int => [some "その他", some p.1])) =
    ps.map (fun p : String × Int => ("その他", some p.1)) from
    List.map_congr_left (fun p _ => rfl)]
  rw [List.filter_eq_self.mpr (by
    intro a ha
    obtain ⟨p, _, rfl⟩ := List.mem_map.mp ha
    rfl)]
  rw [sonotaTagP_parse ps 0 hp]
  exact dedupByLabel_of_nodup _ (by rw [sonotaSlice_fst]; exact sonotaTags_nodup _ _)

/-- The vertical merger on a catch-all chunk of any length keeps every row
under its own minted ordinal label with its own value. -/
theorem tool2_vertical_sonota (ps : List (String × Int))
    (hp : ∀ p ∈ ps, valParse p.1 = some p.2)
    (hd : ∀ p ∈ ps, detect_year_header p.1 = none) :
    tool2_extract_data_vertical (sonotaChunk ps) =
      (some ⟨sonotaTags 0 ps.length, [("2024Q1", ps.map (fun p => some p.2))]⟩,
       sonotaTags 0 ps.length) := by
  have e1 : tool2_extract_data_vertical (sonotaChunk ps) =
      (if (yearCells (sonotaChunk ps)).isEmpty then (none, [])
       else
         (some ⟨dedupFirst (sonotaTag (initialItems (sonotaChunk ps)) 0),
            vertFold (sonotaChunk ps) (dedupFirst (sonotaTag (initialItems (sonotaChunk ps)) 0))
              (yearCells (sonotaChunk ps)) []⟩,
          dedupFirst (sonotaTag (initialItems (sonotaChunk ps)) 0))) := rfl
  have hai : dedupFirst (sonotaTag (initialItems (sonotaChunk ps)) 0) =
      sonotaTags 0 ps.length := by
    rw [initialItems_sonotaChunk, sonotaTag_replicate]
    exact dedupFirst_of_nodup _ (sonotaTags_nodup _ _)
  rw [e1, yearCells_sonotaChunk ps hd, hai]
  rw [show (([(0, 1, "2024Q1")] : List (Nat × Nat × String)).isEmpty) = false from rfl]
  simp only [Bool.false_eq_true, if_false]
  have e2 : vertFold (sonotaChunk ps) (sonotaTags 0 ps.length) [(0, 1, "2024Q1")] [] =
      [("2024Q1", (sonotaTags 0 ps.length).map
        (fun l => lookupVal (vertSlice (sonotaChunk ps) 0 1) l))] := rfl
  rw [e2, vertSlice_sonotaChunk ps hp]
  have e3 : (sonotaTags 0 ps.length).map (fun l => lookupVal (sonotaSlice 0 ps) l) =
      ps.map (fun p => some p.2) := by
    have h1 := lookupVal_self (sonotaSlice 0 ps)
      (by rw [sonotaSlice_fst]; exact sonotaTags_nodup _ _)
    rw [sonotaSlice_fst] at h1
    rw [h1, sonotaSlice_snd]
  rw [e3]

/-- A slot contribution computed from its pieces. -/
theorem contrib_eq (mode : Mode) (tcs : List Grid) (i : Nat) (c : Grid)
    (hg : tcs.get? i = some c) (cc : Grid) (hcc : cleanTable c = cc)
    (hne : cc.isEmpty = false) (f : Frame) (ls : List String)
    (hm : mergerFor mode cc = (some f, ls)) (hf : f.labels.isEmpty = false) :
    contrib mode tcs i = some (f, ls) := by
  unfold contrib
  rw [hg]
  simp only [hcc, hne, Bool.false_eq_true, if_false, hm]
  rw [hf]
  simp

/-- Finalizing one slot holding a single frame with a single period column
over a duplicate-free label column strips the labels and defaults the
values. -/
theorem finalize_single (labels : List String) (h : String) (vals : List (Option Int))
    (hnd : labels.Nodup) (hlen : vals.length = labels.length) :
    finalizeSlot labels [⟨labels, [(h, vals)]⟩] =
      ⟨labels.map stripTemp, [(h, vals.map (fun oc => oc.getD 0))]⟩ := by
  have hm : List.foldl mergeStep ⟨labels, ([] : List (String × List (Option Int)))⟩
      [⟨labels, [(h, vals)]⟩] =
      ⟨labels, [(h, labels.map (fun l =>
        match labels.findIdx? (fun y => y == l) with
        | none => (none : Option Int)
        | some i => (vals.get? i).getD none))]⟩ := rfl
  have hcv : colValsOf ⟨labels, [(h, vals)]⟩ h = vals := by
    show ((([(h, vals)] : List (String × List (Option Int))).find?
      (fun pc => pc.1 == h)).map (fun pc => pc.2)).getD [] = vals
    rw [List.find?_cons_of_pos _ (by simp)]
    rfl
  simp only [finalizeSlot]
  rw [hm]
  rw [selfIdxLookup labels vals hnd hlen]
  show (⟨labels.map stripTemp,
    [(h, (colValsOf ⟨labels, [(h, vals)]⟩ h).map (fun oc => oc.getD 0))]⟩ : FinalFrame) =
    ⟨labels.map stripTemp, [(h, vals.map (fun oc => oc.getD 0))]⟩
  rw [hcv]

/-- The whole pipeline on a one-file one-table catch-all sheet of any
nonzero length: the final summary frame has one row per input row, each
labelled exactly その他 again, carrying its own value. -/
theorem pipeline_sonota (ps : List (String × Int)) (hne : ps ≠ [])
    (hp : ∀ p ∈ ps, valParse p.1 = some p.2)
    (hd : ∀ p ∈ ps, detect_year_header p.1 = none) :
    process_files_and_tables (sonotaGrid ps) Mode.vertical =
      [⟨List.replicate ps.length "その他", [("2024Q1", ps.map (fun p => p.2))]⟩] := by
  have hast : astype0 (sonotaGrid ps) = sonotaGrid ps := by
    unfold astype0
    refine (List.map_congr_left ?_).trans (List.map_id _)
    intro r hr
    simp only [sonotaGrid, sonotaChunk, List.mem_cons, List.mem_map] at hr
    rcases hr with rfl | rfl | rfl | ⟨p, _, rfl⟩ <;> rfl
  have hsplit : sonotaGrid ps =
      ([[some "ファイル名: f.pdf", none], [some "--- ページ 1 / テーブル 1 ---", none],
        [some "", some "2024Q1"]] : Grid) ++
        ps.map (fun p => [some "その他", some p.1]) := rfl
  have hfm : markerIdxs (sonotaGrid ps) isFileMarker = [0] := by
    rw [hsplit, markerIdxs_append_false]
    · rfl
    · intro r hr
      obtain ⟨p, _, rfl⟩ := List.mem_map.mp hr
      rfl
  have hpm : markerIdxs (sonotaGrid ps) isPageMarker = [1] := by
    rw [hsplit, markerIdxs_append_false]
    · rfl
    · intro r hr
      obtain ⟨p, _, rfl⟩ := List.mem_map.mp hr
      rfl
  have hfc : fileChunks (sonotaGrid ps) = [sonotaGrid ps] := by
    unfold fileChunks
    rw [hfm]
    rfl
  have htc : tableChunks (sonotaGrid ps) =
      [[[some "ファイル名: f.pdf", none]],
       [some "--- ページ 1 / テーブル 1 ---", none] :: sonotaChunk ps] := by
    unfold tableChunks
    rw [hpm]
    rfl
  have hclean : cleanTable ([some "--- ページ 1 / テーブル 1 ---", none] :: sonotaChunk ps) =
      sonotaChunk ps := by
    have e : cleanTable ([some "--- ページ 1 / テーブル 1 ---", none] :: sonotaChunk ps) =
        dropAllNa ([some "", some "2024Q1"] ::
          (ps.map (fun p => [some "その他", some p.1])).filter
            (fun rw => !(containsSub "ファイル名:".data (col0Of rw).data
              || containsSub "---".data (col0Of rw).data))) := rfl
    rw [e]
    rw [List.filter_eq_self.mpr (fun r hr => by
      obtain ⟨p, _, rfl⟩ := List.mem_map.mp hr
      rfl)]
    have e2 : dropAllNa ([some "", some "2024Q1"] ::
        ps.map (fun p => [some "その他", some p.1])) =
        [some "", some "2024Q1"] ::
          (ps.map (fun p => [some "その他", some p.1])).filter
            (fun rw => !(rw.all (fun c => c = none))) := rfl
    rw [e2]
    rw [List.filter_eq_self.mpr (fun r hr => by
      obtain ⟨p, _, rfl⟩ := List.mem_map.mp hr
      rfl)]
    rfl
  obtain ⟨q, ps', rfl⟩ := List.exists_cons_of_ne_nil hne
  have hc0 : contrib Mode.vertical
      [[[some "ファイル名: f.pdf", none]],
       [some "--- ページ 1 / テーブル 1 ---", none] :: sonotaChunk (q :: ps')] 0 = none := rfl
  have hc1 : contrib Mode.vertical
      [[[some "ファイル名: f.pdf", none]],
       [some "--- ページ 1 / テーブル 1 ---", none] :: sonotaChunk (q :: ps')] 1 =
      some (⟨sonotaTags 0 (q :: ps').length,
        [("2024Q1", (q :: ps').map (fun p => some p.2))]⟩,
        sonotaTags 0 (q :: ps').length) := by
    refine contrib_eq Mode.vertical
      [[[some "ファイル名: f.pdf", none]],
       [some "--- ページ 1 / テーブル 1 ---", none] :: sonotaChunk (q :: ps')] 1
      ([some "--- ページ 1 / テーブル 1 ---", none] :: sonotaChunk (q :: ps')) rfl
      (sonotaChunk (q :: ps')) hclean rfl
      ⟨sonotaTags 0 (q :: ps').length, [("2024Q1", (q :: ps').map (fun p => some p.2))]⟩
      (sonotaTags 0 (q :: ps').length) ?_ rfl
    exact (show mergerFor Mode.vertical (sonotaChunk (q :: ps')) =
      tool2_extract_data_vertical (sonotaChunk (q :: ps')) from rfl).trans
      (tool2_vertical_sonota (q :: ps') hp hd)
  have hfin : finalizeSlot (sonotaTags 0 (q :: ps').length)
      [⟨sonotaTags 0 (q :: ps').length, [("2024Q1", (q :: ps').map (fun p => some p.2))]⟩] =
      ⟨List.replicate (q :: ps').length "その他",
        [("2024Q1", (q :: ps').map (fun p => p.2))]⟩ := by
    rw [finalize_single _ _ _ (sonotaTags_nodup _ _)
      (by rw [List.length_map, sonotaTags_length])]
    rw [sonotaTags_stripTemp, List.map_map]
    rw [show (q :: ps').map ((fun oc : Option Int => oc.getD 0) ∘ (fun p => some p.2)) =
      (q :: ps').map (fun p => p.2) from List.map_congr_left (fun p _ => rfl)]
  simp only [process_files_and_tables]
  rw [hast, hfc]
  simp only [List.map_cons, List.map_nil]
  rw [htc]
  rw [show (([[[some "ファイル名: f.pdf", none]],
      [some "--- ページ 1 / テーブル 1 ---", none] :: sonotaChunk (q :: ps')].length ::
      ([] : List Nat)).foldr max 0) = 2 from rfl]
  rw [show List.range 2 = [0, 1] from rfl]
  simp only [List.filterMap_cons, List.filterMap_nil, hc0, hc1]
  simp only [List.isEmpty_nil, List.isEmpty_cons, if_true, Bool.false_eq_true, if_false]
  simp only [List.foldl_cons, List.foldl_nil, masterOrderStep, List.isEmpty_nil, if_true,
    List.nil_append, List.map_cons, List.map_nil]
  rw [show (some q.2 :: List.map (fun p : String × Int => some p.2) ps') =
    List.map (fun p : String × Int => some p.2) (q :: ps') from rfl]
  rw [hfin]
  rfl

/-- C4 (corrected): the round trip fails as universally stated (see the
counterexample: a その他 row whose value does not parse is dropped by the
horizontal merger before the ordinal tagging), but holds with the side
conditions the counterexample violates. For every table of N rows all
labelled exactly その他 whose value strings parse as numbers and are not
themselves period notations: the N minted ordinal labels are pairwise
distinct for every N and every starting ordinal; the vertical merger keeps
the N rows as N distinct ordinal-suffixed rows each with its own value;
the whole pipeline returns a final summary frame with N rows again
labelled exactly その他, each with its own value, never merged; and the
final suffix strip restores その他 for every ordinal. -/
theorem claim_C4 :
    (∀ n k : Nat, (sonotaTags k n).Nodup) ∧
    (∀ ps : List (String × Int),
      (∀ p ∈ ps, valParse p.1 = some p.2) →
      (∀ p ∈ ps, detect_year_header p.1 = none) →
      tool2_extract_data_vertical (sonotaChunk ps) =
        (some ⟨sonotaTags 0 ps.length, [("2024Q1", ps.map (fun p => some p.2))]⟩,
         sonotaTags 0 ps.length)) ∧
    (∀ ps : List (String × Int), ps ≠ [] →
      (∀ p ∈ ps, valParse p.1 = some p.2) →
      (∀ p ∈ ps, detect_year_header p.1 = none) →
      process_files_and_tables (sonotaGrid ps) Mode.vertical =
        [⟨List.replicate ps.length "その他", [("2024Q1", ps.map (fun p => p.2))]⟩]) ∧
    (∀ k : Nat, stripTemp ("その他_temp_" ++ toString k) = "その他") :=
  ⟨fun n k => sonotaTags_nodup n k,
   fun ps hp hd => tool2_vertical_sonota ps hp hd,
   fun ps hne hp hd => pipeline_sonota ps hne hp hd,
   fun k => stripTemp_sonota k⟩

/-- Witness for C4 at N = 2 with values 10 and 20: both side conditions
hold, the merger keeps two ordinal-suffixed rows, and the pipeline emits
two rows labelled その他 with their own values. -/
theorem claim_C4_witness :
    (∀ p ∈ ([("10", (10 : Int)), ("20", 20)] : List (String × Int)),
      valParse p.1 = some p.2) ∧
    (∀ p ∈ ([("10", (10 : Int)), ("20", 20)] : List (String × Int)),
      detect_year_header p.1 = none) ∧
    tool2_extract_data_vertical (sonotaChunk [("10", 10), ("20", 20)]) =
      (some ⟨["その他_temp_0", "その他_temp_1"], [("2024Q1", [some 10, some 20])]⟩,
       ["その他_temp_0", "その他_temp_1"]) ∧
    process_files_and_tables (sonotaGrid [("10", 10), ("20", 20)]) Mode.vertical =
      [⟨["その他", "その他"], [("2024Q1", [10, 20])]⟩] :=
  ⟨by decide, by decide,
   (claim_C4.2.1 [("10", 10), ("20", 20)] (by decide) (by decide)).trans (by decide),
   (claim_C4.2.2.1 [("10", 10), ("20", 20)] (by decide) (by decide) (by decide)).trans
     (by decide)⟩

/-- Counterexample to C4 as stated: a table with N = 2 rows labelled
exactly その他 where the second row's value xyz is not numeric. The
horizontal merger drops that row before the ordinal tagging, so
intermediate processing keeps only ONE distinct row, and the final summary
frame contains a single その他 row — not two. -/
theorem claim_C4_counterexample :
    tool2_extract_data_horizontal
        [[some "項目", some "2024Q1"], [some "その他", some "10"], [some "その他", some "xyz"]] =
      (some ⟨["その他_temp_0"], [("2024Q1", [some 10])]⟩, ["その他_temp_0"]) ∧
    process_files_and_tables
        [[some "項目", some "2024Q1"], [some "その他", some "10"], [some "その他", some "xyz"]]
        Mode.horizontal =
      [⟨["その他"], [("2024Q1", [10])]⟩] :=
  ⟨by decide, by decide⟩

/-- C8: a fully blank row is NOT removed before the merger: astype(str)
has already turned its first cell into the string "nan", so neither the
marker filter nor dropna(how="all") drops it, the vertical merger receives
it, and the final summary gains a phantom item row labelled "nan". -/
theorem claim_C8 :
    tableChunks (astype0 [[some "項目", some "2024Q1"], [none, none], [some "売上", some "5"]]) =
      [[[some "項目", some "2024Q1"], [some "nan", none], [some "売上", some "5"]]] ∧
    cleanTable [[some "項目", some "2024Q1"], [some "nan", none], [some "売上", some "5"]] =
      [[some "項目", some "2024Q1"], [some "nan", none], [some "売上", some "5"]] ∧
    process_files_and_tables [[some "項目", some "2024Q1"], [none, none], [some "売上", some "5"]]
        Mode.vertical =
      [⟨["項目", "nan", "売上"], [("2024Q1", [0, 0, 5])]⟩] :=
  ⟨by decide, by decide, by decide⟩

/-- The marker indices of a grid are weakly increasing: they are a
filtered enumeration of row positions. -/
theorem markerIdxs_chain (g : Grid) (p : Row → Bool) :
    List.Chain' (· ≤ ·) (markerIdxs g p) := by
  have h1 : (markerIdxs g p).Pairwise (· < ·) :=
    (List.pairwise_lt_range g.length).sublist (List.filter_sublist _)
  exact (h1.imp le_of_lt).chain'

/-- The successive slices from one index to the next concatenate back to
the tail of the grid from the first index on. -/
theorem sliceList_flatten (g : Grid) (idxs : List Nat) :
    ∀ i : Nat, List.Chain' (· ≤ ·) (i :: idxs) →
      (sliceList g (i :: idxs)).flatten = g.drop i := by
  induction idxs with
  | nil =>
    intro i _
    simp [sliceList]
  | cons j rest ih =>
    intro i h
    have hij : i ≤ j := (List.chain'_cons.mp h).1
    have h2 : List.Chain' (· ≤ ·) (j :: rest) := (List.chain'_cons.mp h).2
    simp only [sliceList, List.flatten_cons, ih j h2]
    have hj : j = i + (j - i) := by omega
    rw [hj]
    have h3 : i + (j - i) - i = j - i := by omega
    rw [h3]
    exact List.drop_take_append_drop g i (j - i)

/-- C10: when the sheet has file-name markers, the file chunks jointly
cover exactly the rows from the first marker on — every row above the
first file-name marker belongs to no chunk — and only a sheet with no
marker at all is processed as one single chunk. -/
theorem claim_C10 :
    (∀ g : Grid, markerIdxs g isFileMarker = [] → fileChunks g = [g]) ∧
    (∀ (g : Grid) (k : Nat) (rest : List Nat),
      markerIdxs g isFileMarker = k :: rest → (fileChunks g).flatten = g.drop k) := by
  constructor
  · intro g h
    simp [fileChunks, h]
  · intro g k rest h
    have hc : List.Chain' (· ≤ ·) (k :: rest) := h ▸ markerIdxs_chain g isFileMarker
    simp only [fileChunks, h, List.isEmpty_cons, if_neg Bool.false_ne_true]
    exact sliceList_flatten g rest k hc

/-- Witness for C10: on a sheet whose first file-name marker sits at row
1, the single leading junk row is in no file chunk — the chunks
concatenate to the rows from index 1 on. -/
theorem claim_C10_witness :
    markerIdxs [[some "junk"], [some "ファイル名: a"], [some "x"]] isFileMarker = [1] ∧
    (fileChunks [[some "junk"], [some "ファイル名: a"], [some "x"]]).flatten =
      [[some "ファイル名: a"], [some "x"]] :=
  ⟨by decide,
    (claim_C10.2 [[some "junk"], [some "ファイル名: a"], [some "x"]] 1 [] (by decide)).trans
      (by decide)⟩

/-- The code-point string comparison is total. -/
theorem strLeB_total : ∀ a b : List Char, strLeB a b = true ∨ strLeB b a = true := by
  intro a
  induction a with
  | nil =>
    intro b
    left
    rfl
  | cons x xs ih =>
    intro b
    cases b with
    | nil =>
      right
      rfl
    | cons y ys =>
      by_cases hxy : x < y
      · left
        simp [strLeB, hxy]
      · by_cases hyx : y < x
        · right
          simp [strLeB, hyx]
        · rcases ih ys with h | h
          · left
            simp [strLeB, hxy, hyx, h]
          · right
            simp [strLeB, hxy, hyx, h]

/-- The code-point string comparison is transitive. -/
theorem strLeB_trans :
    ∀ a b c : List Char, strLeB a b = true → strLeB b c = true → strLeB a c = true := by
  intro a
  induction a with
  | nil =>
    intro b c _ _
    rfl
  | cons x xs ih =>
    intro b c hab hbc
    cases b with
    | nil => simp [strLeB] at hab
    | cons y ys =>
      cases c with
      | nil => simp [strLeB] at hbc
      | cons z zs =>
        by_cases hxy : x < y
        · by_cases hyz : y < z
          · simp [strLeB, lt_trans hxy hyz]
          · by_cases hzy : z < y
            · simp [strLeB, hyz, hzy] at hbc
            · have hyz2 : y = z := le_antisymm (not_lt.mp hzy) (not_lt.mp hyz)
              subst hyz2
              simp [strLeB, hxy]
        · by_cases hyx : y < x
          · simp [strLeB, hxy, hyx] at hab
          · have hxy2 : x = y := le_antisymm (not_lt.mp hyx) (not_lt.mp hxy)
            subst hxy2
            simp only [strLeB, lt_irrefl, if_neg (lt_irrefl x)] at hab
            by_cases hxz : x < z
            · simp [strLeB, hxz]
            · by_cases hzx : z < x
              · simp [strLeB, hxz, hzx] at hbc
              · simp only [strLeB, hxz, hzx, if_neg hxz, if_neg hzx] at hbc ⊢
                exact ih ys zs hab hbc

/-- The key lists produced by the grouping stage are sorted: the group
keys come out of a stable sort by the code-point order. -/
theorem groupSum_keys_sorted (l : List (String × Int)) :
    ((groupSum l).map Prod.fst).Pairwise (fun a b => strLeB a.data b.data = true) := by
  haveI : IsTotal String (fun a b => strLeB a.data b.data = true) :=
    ⟨fun a b => strLeB_total a.data b.data⟩
  haveI : IsTrans String (fun a b => strLeB a.data b.data = true) :=
    ⟨fun a b c => strLeB_trans a.data b.data c.data⟩
  have hs := List.sorted_insertionSort (fun a b : String => strLeB a.data b.data = true)
    (dedupFirst (l.map (fun p => p.1)))
  simpa [groupSum, List.map_map, Function.comp_def] using hs

/-- C9: the item list returned by the horizontal merger is in ascending
lexicographic label order (a consequence of the group-and-sum stage) and
equals the frame's label column; on a chunk listing B before A the items
come out as [A, B], so the first-occurrence row order is not preserved. -/
theorem claim_C9 :
    (∀ (g : Grid) (f : Frame) (items : List String),
      tool2_extract_data_horizontal g = (some f, items) →
      items.Pairwise (fun a b => strLeB a.data b.data = true) ∧ items = f.labels) ∧
    tool2_extract_data_horizontal
        [[some "", some "2024Q1"], [some "B", some "1"], [some "A", some "2"]] =
      (some ⟨["A", "B"], [("2024Q1", [some 2, some 1])]⟩, ["A", "B"]) := by
  constructor
  · intro g f items h
    simp only [tool2_extract_data_horizontal] at h
    split at h
    · simp at h
    · split at h
      · simp at h
      · rw [Prod.mk.injEq, Option.some.injEq] at h
        refine ⟨?_, ?_⟩
        · rw [← h.2]
          exact groupSum_keys_sorted _
        · rw [← h.1, ← h.2]
  · decide

/-- Witness for C9: the sortedness statement applied to the concrete
B-before-A chunk. -/
theorem claim_C9_witness :
    (["A", "B"] : List String).Pairwise (fun a b => strLeB a.data b.data = true) ∧
    (["A", "B"] : List String) =
      (⟨["A", "B"], [("2024Q1", [some 2, some 1])]⟩ : Frame).labels :=
  claim_C9.1 [[some "", some "2024Q1"], [some "B", some "1"], [some "A", some "2"]]
    ⟨["A", "B"], [("2024Q1", [some 2, some 1])]⟩ ["A", "B"] (by decide)

/-- Deleting 年度 pairs yields a sublist of the input. -/
theorem removeNendo_sublist : ∀ l : List Char, (removeNendo l).Sublist l
  | [] => by simp [removeNendo]
  | [c] => by simp [removeNendo]
  | c :: d :: rest => by
    simp only [removeNendo]
    split
    · exact ((removeNendo_sublist rest).trans (List.sublist_cons_self d rest)).trans
        (List.sublist_cons_self c (d :: rest))
    · exact List.Sublist.cons₂ c (removeNendo_sublist (d :: rest))

/-- A header none of whose characters uppercases to a digit or to Q leaves
no digits after the sort-key normalization. -/
theorem sortKeyDigits_eq_nil (s : String)
    (h : s.data.all (fun c => !(c.toUpper.isDigit || c.toUpper = 'Q')) = true) :
    sortKeyDigits s = [] := by
  refine List.filter_eq_nil_iff.mpr ?_
  intro c hc
  have h5 : c ∈ removeNendo (((s.data.map Char.toUpper).filter (fun c => c ≠ '/')).map
      (fun c => if c = 'Q' then '0' else c)) :=
    List.mem_of_mem_filter (List.mem_of_mem_filter hc)
  have h4 := (removeNendo_sublist _).subset h5
  obtain ⟨x, hx, rfl⟩ := List.mem_map.mp h4
  have hx0 : x ∈ s.data.map Char.toUpper := List.mem_of_mem_filter hx
  obtain ⟨y, hy, rfl⟩ := List.mem_map.mp hx0
  have hprop := List.all_eq_true.mp h y hy
  simp only [Bool.not_eq_true', Bool.or_eq_false_iff, decide_eq_false_iff_not] at hprop
  rw [if_neg hprop.2]
  simp [hprop.1]

/-- The sorted period headers of a finalized slot frame are pairwise
ascending in sort_key. -/
theorem finalizeSlot_cols_sorted (order : List String) (frames : List Frame) :
    ((finalizeSlot order frames).cols.map Prod.fst).Pairwise
      (fun a b => sort_key a ≤ sort_key b) := by
  haveI : IsTotal String (fun a b : String => sort_key a ≤ sort_key b) :=
    ⟨fun a b => Nat.le_total _ _⟩
  haveI : IsTrans String (fun a b : String => sort_key a ≤ sort_key b) :=
    ⟨fun _ _ _ h1 h2 => le_trans h1 h2⟩
  have hs := List.sorted_insertionSort (fun a b : String => sort_key a ≤ sort_key b)
    ((frames.foldl mergeStep ⟨order, []⟩).cols.map (fun pc => pc.1))
  simpa [finalizeSlot, sortYearCols, List.map_map, Function.comp_def] using hs

/-- C5 (amended): the sort key is the normalization chain of the source; a
header none of whose characters is a digit or a Q receives the sentinel
99999999 and sorts after every header of strictly smaller key; the key
comparison is total; every summary frame emitted by the pipeline has its
period columns pairwise ascending in the key; and the canonical period
notations order chronologically with a no-digit header last. -/
theorem claim_C5 :
    (∀ s : String, s.data.all (fun c => !(c.toUpper.isDigit || c.toUpper = 'Q')) = true →
      sort_key s = 99999999) ∧
    (∀ s t : String, sort_key s < sort_key t → sortYearCols [t, s] = [s, t]) ∧
    (∀ a b : String, sort_key a ≤ sort_key b ∨ sort_key b ≤ sort_key a) ∧
    (∀ (g : Grid) (m : Mode) (f : FinalFrame), f ∈ process_files_and_tables g m →
      (f.cols.map Prod.fst).Pairwise (fun a b => sort_key a ≤ sort_key b)) ∧
    sortYearCols ["2024/3", "2023年度", "2024Q1", "FY"] =
      ["2023年度", "2024Q1", "2024/3", "FY"] := by
  refine ⟨?_, ?_, ?_, ?_, by decide⟩
  · intro s h
    simp [sort_key, sortKeyDigits_eq_nil s h]
  · intro s t h
    have hn : ¬ (sort_key t ≤ sort_key s) := not_le.mpr h
    simp [sortYearCols, hn]
  · intro a b
    exact Nat.le_total _ _
  · intro g m f hf
    simp only [process_files_and_tables, List.mem_filterMap] at hf
    obtain ⟨i, _, hi⟩ := hf
    split at hi
    · exact absurd hi (by simp)
    · rw [Option.some.injEq] at hi
      rw [← hi]
      exact finalizeSlot_cols_sorted _ _

/-- Witness for C5: the all-letters header FY gets the sentinel key. -/
theorem claim_C5_witness :
    ("FY".data.all (fun c => !(c.toUpper.isDigit || c.toUpper = 'Q'))) = true ∧
    sort_key "FY" = 99999999 :=
  ⟨by decide, claim_C5.1 "FY" (by decide)⟩

/-- Counterexample for C5 as stated: the header "Q" contains no digit yet
receives key 0, not the sentinel, and the nine-digit header "999999999"
has key 999999999, so the digitless header "FY" sorts before it rather
than after every digit-bearing header. -/
theorem claim_C5_counterexample :
    ("Q".data.any Char.isDigit = false ∧ sort_key "Q" = 0) ∧
    ("999999999".data.any Char.isDigit = true ∧ "FY".data.any Char.isDigit = false ∧
      sort_key "FY" = 99999999 ∧ sortYearCols ["999999999", "FY"] = ["FY", "999999999"]) := by
  decide

/-- find? looks only at the left part of an append when it finds a hit
there. -/
theorem find?_append_left {α : Type} (p : α → Bool) (l1 l2 : List α)
    (h : (l1.find? p).isSome = true) : (l1 ++ l2).find? p = l1.find? p := by
  induction l1 with
  | nil => simp at h
  | cons x xs ih =>
    by_cases hx : p x
    · rw [List.cons_append, List.find?_cons_of_pos _ hx, List.find?_cons_of_pos _ hx]
    · rw [List.find?_cons_of_neg _ hx] at h
      rw [List.cons_append, List.find?_cons_of_neg _ hx, List.find?_cons_of_neg _ hx]
      exact ih h

/-- find? on a list of pairs built over the headers list returns the pair
of the searched header. -/
theorem find?_map_pair (F : String → List Int) (hdrs : List String) (h : String)
    (hm : h ∈ hdrs) :
    ((hdrs.map (fun x => (x, F x))).find? (fun pc => pc.1 == h)) = some (h, F h) := by
  induction hdrs with
  | nil => cases hm
  | cons a t ih =>
    simp only [List.map_cons]
    by_cases hx : a = h
    · subst hx
      rw [List.find?_cons_of_pos]
      simp
    · rw [List.find?_cons_of_neg]
      · exact ih ((List.mem_cons.mp hm).resolve_left (fun he => hx he.symm))
      · simp [hx]

/-- C6: left-merging an incoming frame adds no second column for a period
already present (the count of that header is unchanged), does add every
genuinely new period column, and never changes the cell list of an
existing period column (first-seen values win); after all merges the
finalized slot frame carries, for each period header, exactly the merged
cells with every NaN filled by zero. -/
theorem claim_C6 :
    (∀ (acc inc : Frame) (h : String), h ∈ acc.cols.map Prod.fst →
      ((mergeStep acc inc).cols.map Prod.fst).count h = (acc.cols.map Prod.fst).count h) ∧
    (∀ (acc inc : Frame) (h : String), h ∈ inc.cols.map Prod.fst →
      h ∈ (mergeStep acc inc).cols.map Prod.fst) ∧
    (∀ (acc inc : Frame) (h : String), h ∈ acc.cols.map Prod.fst →
      colValsOf (mergeStep acc inc) h = colValsOf acc h) ∧
    (∀ (order : List String) (frames : List Frame) (h : String),
      h ∈ (frames.foldl mergeStep ⟨order, []⟩).cols.map Prod.fst →
      ((finalizeSlot order frames).cols.find? (fun pc => pc.1 == h)).map Prod.snd =
        some ((colValsOf (frames.foldl mergeStep ⟨order, []⟩) h).map
          (fun oc => oc.getD 0))) := by
  refine ⟨?_, ?_, ?_, ?_⟩
  · intro acc inc h hm
    simp only [mergeStep, List.map_append, List.count_append, List.map_map]
    have hz : (List.map (Prod.fst ∘ fun pc => (pc.1,
        acc.labels.map (fun l =>
          match inc.labels.findIdx? (fun y => y == l) with
          | none => none
          | some i => (pc.2.get? i).getD none)))
        (inc.cols.filter (fun pc => !(acc.cols.any (fun ac => ac.1 == pc.1))))).count h = 0 := by
      rw [List.count_eq_zero]
      intro hcon
      obtain ⟨pc, hpc, he⟩ := List.mem_map.mp hcon
      have hf := (List.mem_filter.mp hpc).2
      obtain ⟨ac, hac, hach⟩ := List.mem_map.mp hm
      have : acc.cols.any (fun ac => ac.1 == pc.1) = true :=
        List.any_eq_true.mpr ⟨ac, hac, by simp [hach, ← he]⟩
      rw [this] at hf
      simp at hf
    rw [hz]
    omega
  · intro acc inc h hm
    simp only [mergeStep, List.map_append, List.mem_append]
    by_cases hin : h ∈ acc.cols.map Prod.fst
    · left
      exact hin
    · right
      obtain ⟨pc, hpc, he⟩ := List.mem_map.mp hm
      have hp : pc ∈ inc.cols.filter (fun pc => !(acc.cols.any (fun ac => ac.1 == pc.1))) := by
        rw [List.mem_filter]
        refine ⟨hpc, ?_⟩
        cases hany : acc.cols.any (fun ac => ac.1 == pc.1) with
        | false => simp
        | true =>
          obtain ⟨ac, hac, hbe⟩ := List.any_eq_true.mp hany
          exact absurd (List.mem_map.mpr ⟨ac, hac, (eq_of_beq hbe).trans he⟩) hin
      exact List.mem_map.mpr ⟨_, List.mem_map.mpr ⟨pc, hp, rfl⟩, he⟩
  · intro acc inc h hm
    have hs : (acc.cols.find? (fun pc => pc.1 == h)).isSome = true := by
      rw [List.find?_isSome]
      obtain ⟨pc, hpc, he⟩ := List.mem_map.mp hm
      exact ⟨pc, hpc, by simp [he]⟩
    simp only [colValsOf, mergeStep]
    rw [find?_append_left _ _ _ hs]
  · intro order frames h hm
    simp only [finalizeSlot]
    rw [find?_map_pair (fun x => (colValsOf (frames.foldl mergeStep ⟨order, []⟩) x).map
      (fun oc => oc.getD 0)) _ h ?_]
    · simp
    · unfold sortYearCols
      rw [List.mem_insertionSort]
      exact hm

/-- Witness for C6: merging a frame that carries the already present
column 2024Q1 leaves the accumulator's 2024Q1 values untouched. -/
theorem claim_C6_witness :
    colValsOf
        (mergeStep ⟨["A"], [("2024Q1", [some 1])]⟩
          ⟨["A"], [("2024Q1", [some 9]), ("2024Q2", [some 2])]⟩) "2024Q1" = [some 1] :=
  (claim_C6.2.2.1 ⟨["A"], [("2024Q1", [some 1])]⟩
    ⟨["A"], [("2024Q1", [some 9]), ("2024Q2", [some 2])]⟩ "2024Q1" (by decide)).trans
    (by decide)

/-- Every file's contributed rows start with its file-name marker row. -/
theorem perFile_head (kwds : List String) (gs ge : Option Nat)
    (ranges : List (String × Option Nat × Option Nat)) (doc : PdfDoc) :
    ∃ t : List Row,
      (perFile kwds gs ge ranges doc).1 = [some ("ファイル名: " ++ doc.name)] :: t := by
  simp only [perFile]
  split
  · exact ⟨[[]], rfl⟩
  · exact ⟨_, rfl⟩

/-- C7 (amended): missing keywords are fatal — the whole extraction
reports an error and returns no result at all — whereas an invalid
resolved page range (start at or past end) affects only that one file,
which contributes just its file-name marker rows plus a skip warning,
and every file is processed independently, so the run yields the
concatenation of the per-file partial results. -/
theorem claim_C7 :
    (∀ (docs : List PdfDoc) (gs ge : Option Nat)
        (r : List (String × Option Nat × Option Nat)),
      extract_tables_from_multiple_pdfs docs [] gs ge r = (none, [Diag.noKeywords])) ∧
    (∀ (kwds : List String) (gs ge : Option Nat)
        (r : List (String × Option Nat × Option Nat)) (doc : PdfDoc),
      (resolveRange doc gs ge r).2 ≤ (resolveRange doc gs ge r).1 →
      perFile kwds gs ge r doc =
        ([[some ("ファイル名: " ++ doc.name)], []], [Diag.invalidRange doc.name])) ∧
    (∀ (docs : List PdfDoc) (kwds : List String) (gs ge : Option Nat)
        (r : List (String × Option Nat × Option Nat)),
      kwds ≠ [] → docs ≠ [] →
      extract_tables_from_multiple_pdfs docs kwds gs ge r =
        (some (docs.flatMap (fun d => (perFile kwds gs ge r d).1)),
         docs.flatMap (fun d => (perFile kwds gs ge r d).2))) := by
  refine ⟨?_, ?_, ?_⟩
  · intro docs gs ge r
    rfl
  · intro kwds gs ge r doc h
    simp only [perFile]
    rw [if_pos h]
  · intro docs kwds gs ge r hk hd
    obtain ⟨d, ds, rfl⟩ := List.exists_cons_of_ne_nil hd
    have hke : ¬ (kwds.isEmpty = true) := fun h => hk (List.isEmpty_iff.mp h)
    simp only [extract_tables_from_multiple_pdfs, if_neg hke, List.flatMap_map]
    obtain ⟨t, ht⟩ := perFile_head kwds gs ge r d
    have hfalse : (((d :: ds).flatMap fun d => (perFile kwds gs ge r d).1).all
        (fun r => r.isEmpty)) = false := by
      rw [List.flatMap_cons, ht]
      simp
    rw [hfalse]
    simp

/-- Witness for C7: a file whose per-file range resolves to start 4, end 1
is skipped, contributing only its marker rows and the warning. -/
theorem claim_C7_witness :
    (resolveRange ⟨"b.pdf", [⟨"t", []⟩]⟩ (some 5) (some 3) []).2 ≤
      (resolveRange ⟨"b.pdf", [⟨"t", []⟩]⟩ (some 5) (some 3) []).1 ∧
    perFile ["k"] (some 5) (some 3) [] ⟨"b.pdf", [⟨"t", []⟩]⟩ =
      ([[some "ファイル名: b.pdf"], []], [Diag.invalidRange "b.pdf"]) :=
  ⟨by decide, claim_C7.2.1 ["k"] (some 5) (some 3) [] ⟨"b.pdf", [⟨"t", []⟩]⟩ (by decide)⟩

/-- Counterexample for C7 as stated: with keywords missing but a perfectly
processable file present, the extraction reports the error and returns no
result at all — it does not continue and does not yield a partial
result. -/
theorem claim_C7_counterexample :
    extract_tables_from_multiple_pdfs
        [⟨"a.pdf", [⟨"売上高", [[[some "x", some "1"]]]⟩]⟩] [] none none [] =
      (none, [Diag.noKeywords]) := by
  decide
